import Mathlib

/-!
Verification of the core of `node-ytsr` (utils.js / main.js): the embedded-JSON
bracket scanner `cutAfterJSON`, the response decoder `parseBody`, the two
schema-drift adapters `parseWrapper` / `parsePage2Wrapper`, the filter-catalog
extractor `parseFilters`, and the continuation-driven pagination engine
(`fetchSearchResults`, `fetchNextPage`, `continueRequest`).

JavaScript values are shallowly embedded as the inductive `JSVal`; JavaScript
numbers as `JNum` (rationals plus NaN and the two infinities); runtime
`TypeError`s and `throw`n errors as an `Except EngineErr` result.  Strings are
`List Char` at the scanner level and Lean `String` for object keys.
-/

set_option maxRecDepth 8192

namespace Ytsr

/-! ## The bracket scanner `cutAfterJSON` (utils.js lines 299-350) -/

/-- Result type of `cutAfterJSON`: the extracted span, or one of the two
throw sites of the source (unsupported root character / no matching
closing bracket found). -/
inductive CutResult where
  | ok (span : List Char)
  | unsupportedRoot
  | unterminated
deriving DecidableEq

/-- Shift the cut position of a scanner result by `k` characters. -/
def shift (k : Nat) : Option Nat × Int → Option Nat × Int
  | (r, c) => (r.map (· + k), c)

/-- The character loop of `cutAfterJSON`.  State: the remaining input, the
`isString` and `isEscaped` booleans, and the open-bracket `counter`.  Returns
`some n` in the first component when the counter reaches zero after the
`n`-th remaining character (the span is the first `n` characters), `none`
when the input is exhausted; the second component is the final counter. -/
def cutScan (op cl : Char) : List Char → Bool → Bool → Int → Option Nat × Int
  | [], _, _, counter => (none, counter)
  | c :: rest, isStr, isEsc, counter =>
    if c = '"' ∧ isEsc = false then
      shift 1 (cutScan op cl rest (!isStr) false counter)
    else
      let esc2 : Bool := decide (c = '\\') && !isEsc
      if isStr then
        shift 1 (cutScan op cl rest isStr esc2 counter)
      else
        let counter2 : Int := if c = op then counter + 1 else if c = cl then counter - 1 else counter
        if counter2 = 0 then (some 1, counter2)
        else shift 1 (cutScan op cl rest isStr esc2 counter2)

/-- Bracket-pair selection of `cutAfterJSON`: the first character of the
input fixes the open/close pair, anything else is unsupported. -/
def rootPair (s : List Char) : Option (Char × Char) :=
  match s.head? with
  | some c => if c = '[' then some ('[', ']') else if c = '{' then some ('{', '}') else none
  | none => none

/-- `cutAfterJSON` from utils.js: pick the bracket pair from the first
character, scan, and cut the prefix where the counter returns to zero. -/
def cutAfterJSON (s : List Char) : CutResult :=
  match rootPair s with
  | none => .unsupportedRoot
  | some (op, cl) =>
    match (cutScan op cl s false false 0).1 with
    | some n => .ok (s.take n)
    | none => .unterminated

/-- JSON whitespace characters (used to state the first-non-whitespace
reading of claim C2). -/
def wsChars : List Char := [' ', '\t', '\n', '\r']

/-- First non-whitespace character of a string. -/
def firstNonWs (s : List Char) : Option Char :=
  (s.dropWhile (fun c => c ∈ wsChars)).head?

theorem shift_add (j k : Nat) (p : Option Nat × Int) :
    shift j (shift k p) = shift (j + k) p := by
  rcases p with ⟨r, c⟩
  cases r <;> simp [shift, Nat.add_comm, Nat.add_assoc, Nat.add_left_comm]

theorem shift_fst_none (k : Nat) (p : Option Nat × Int) :
    (shift k p).1 = none ↔ p.1 = none := by
  rcases p with ⟨r, c⟩; cases r <;> simp [shift]

theorem shift_snd (k : Nat) (p : Option Nat × Int) : (shift k p).2 = p.2 := by
  rcases p with ⟨r, c⟩; simp [shift]

/-- If the scanner already has an open bracket (positive counter) and
exhausts its input, the final counter is still positive: the counter moves
by at most one per character and the scan stops the moment it reaches 0. -/
theorem cutScan_exhaust_pos (op cl : Char) :
    ∀ (s : List Char) (isStr isEsc : Bool) (counter : Int), 0 < counter →
      (cutScan op cl s isStr isEsc counter).1 = none →
      0 < (cutScan op cl s isStr isEsc counter).2 := by
  intro s
  induction s with
  | nil => intro _ _ counter hpos _; simpa [cutScan] using hpos
  | cons c rest ih =>
    intro isStr isEsc counter hpos hnone
    rw [cutScan] at hnone ⊢
    by_cases hq : c = '"' ∧ isEsc = false
    · rw [if_pos hq] at hnone ⊢
      rw [shift_snd]
      exact ih _ _ _ hpos ((shift_fst_none _ _).mp hnone)
    · rw [if_neg hq] at hnone ⊢
      by_cases hs : isStr = true
      · rw [if_pos hs] at hnone ⊢
        rw [shift_snd]
        exact ih _ _ _ hpos ((shift_fst_none _ _).mp hnone)
      · rw [if_neg hs] at hnone ⊢
        set counter2 : Int := if c = op then counter + 1 else if c = cl then counter - 1 else counter with hc2
        by_cases hz : counter2 = 0
        · rw [if_pos hz] at hnone; simp at hnone
        · rw [if_neg hz] at hnone ⊢
          rw [shift_snd]
          have hpos2 : 0 < counter2 := by
            have hcases : counter2 = counter + 1 ∨ counter2 = counter - 1 ∨ counter2 = counter := by
              simp only [hc2]
              split
              · exact Or.inl rfl
              · split
                · exact Or.inr (Or.inl rfl)
                · exact Or.inr (Or.inr rfl)
            rcases hcases with h | h | h <;> omega
          exact ih _ _ _ hpos2 ((shift_fst_none _ _).mp hnone)

theorem rootPair_of_head_open (s : List Char) (op cl : Char) (h : rootPair s = some (op, cl)) :
    s.head? = some op ∧ (op = '[' ∧ cl = ']' ∨ op = '{' ∧ cl = '}') := by
  cases s with
  | nil => simp [rootPair] at h
  | cons c t =>
    simp only [rootPair, List.head?_cons] at h ⊢
    by_cases h1 : c = '['
    · rw [if_pos h1] at h
      simp only [Option.some.injEq, Prod.mk.injEq] at h
      obtain ⟨ho, hc⟩ := h
      subst ho; subst hc
      exact ⟨by rw [h1], Or.inl ⟨rfl, rfl⟩⟩
    · rw [if_neg h1] at h
      by_cases h2 : c = '{'
      · rw [if_pos h2] at h
        simp only [Option.some.injEq, Prod.mk.injEq] at h
        obtain ⟨ho, hc⟩ := h
        subst ho; subst hc
        exact ⟨by rw [h2], Or.inr ⟨rfl, rfl⟩⟩
      · rw [if_neg h2] at h; cases h

theorem rootPair_eq_none (s : List Char) :
    rootPair s = none ↔ ¬(s.head? = some '[' ∨ s.head? = some '{') := by
  cases s with
  | nil => simp [rootPair]
  | cons c t =>
    simp only [rootPair, List.head?_cons]
    by_cases h1 : c = '['
    · subst h1; simp
    · by_cases h2 : c = '{'
      · subst h2; simp
      · simp [h1, h2]

theorem cutScan_root_step (op cl : Char) (hq : op ≠ '"') (hb : op ≠ '\\') (t : List Char) :
    cutScan op cl (op :: t) false false 0 = shift 1 (cutScan op cl t false false 1) := by
  rw [cutScan]
  rw [if_neg (fun hcontra => hq hcontra.1)]
  rw [if_neg (by simp)]
  simp only [if_pos rfl]
  rw [if_neg (by norm_num)]
  have hesc : (decide (op = '\\') && !false) = false := by simp [hb]
  rw [hesc]
  norm_num

theorem cutScan_root_exhaust (s : List Char) (op cl : Char)
    (hr : rootPair s = some (op, cl)) (hnone : (cutScan op cl s false false 0).1 = none) :
    (cutScan op cl s false false 0).2 ≠ 0 := by
  obtain ⟨hhead, hpair⟩ := rootPair_of_head_open s op cl hr
  have hq : op ≠ '"' := by rcases hpair with ⟨h, -⟩ | ⟨h, -⟩ <;> subst h <;> decide
  have hb : op ≠ '\\' := by rcases hpair with ⟨h, -⟩ | ⟨h, -⟩ <;> subst h <;> decide
  cases s with
  | nil => cases hhead
  | cons c t =>
    simp only [List.head?_cons, Option.some.injEq] at hhead
    subst hhead
    rw [cutScan_root_step c cl hq hb] at hnone ⊢
    rw [shift_snd]
    have hgt := cutScan_exhaust_pos c cl t false false 1 (by norm_num)
      ((shift_fst_none _ _).mp hnone)
    omega

theorem cutAfterJSON_eq_of_rootPair_none (s : List Char) (h : rootPair s = none) :
    cutAfterJSON s = .unsupportedRoot := by
  unfold cutAfterJSON; rw [h]

theorem cutAfterJSON_eq_of_rootPair_some (s : List Char) (op cl : Char)
    (h : rootPair s = some (op, cl)) :
    cutAfterJSON s = (match (cutScan op cl s false false 0).1 with
      | some n => CutResult.ok (s.take n)
      | none => CutResult.unterminated) := by
  unfold cutAfterJSON; rw [h]

/-- C2 (amended): `cutAfterJSON` fails with the unsupported-root error iff
the literal first character (position 0, not the first non-whitespace
character) is neither `[` nor `{`; it fails with the unterminated-structure
error iff the first character is such a bracket and the scan exhausts the
string, and in that case the final bracket counter is necessarily nonzero;
and there is no other failure. -/
theorem cutAfterJSON_error_cases (s : List Char) :
    (cutAfterJSON s = .unsupportedRoot ↔ ¬(s.head? = some '[' ∨ s.head? = some '{'))
    ∧ (cutAfterJSON s = .unterminated ↔
        ∃ op cl, rootPair s = some (op, cl) ∧ (cutScan op cl s false false 0).1 = none
          ∧ (cutScan op cl s false false 0).2 ≠ 0)
    ∧ (cutAfterJSON s = .unsupportedRoot ∨ cutAfterJSON s = .unterminated
        ∨ ∃ t, cutAfterJSON s = .ok t) := by
  refine ⟨?_, ?_, ?_⟩
  · cases hr : rootPair s with
    | none =>
      rw [cutAfterJSON_eq_of_rootPair_none s hr]
      simpa using (rootPair_eq_none s).mp hr
    | some pr =>
      rcases pr with ⟨op, cl⟩
      rw [cutAfterJSON_eq_of_rootPair_some s op cl hr]
      obtain ⟨hhead, hpair⟩ := rootPair_of_head_open s op cl hr
      have hbr : s.head? = some '[' ∨ s.head? = some '{' := by
        rcases hpair with ⟨h, -⟩ | ⟨h, -⟩
        · exact Or.inl (by rw [hhead, h])
        · exact Or.inr (by rw [hhead, h])
      cases hc : (cutScan op cl s false false 0).1 <;> simp [hbr]
  · cases hr : rootPair s with
    | none =>
      rw [cutAfterJSON_eq_of_rootPair_none s hr]
      constructor
      · intro h; cases h
      · rintro ⟨op, cl, hsome, -, -⟩; cases hsome
    | some pr =>
      rcases pr with ⟨op, cl⟩
      rw [cutAfterJSON_eq_of_rootPair_some s op cl hr]
      cases hc : (cutScan op cl s false false 0).1 with
      | none =>
        simp only [true_iff]
        exact ⟨op, cl, rfl, hc, cutScan_root_exhaust s op cl hr hc⟩
      | some n =>
        constructor
        · intro h; cases h
        · rintro ⟨op2, cl2, hsome, hnone, -⟩
          simp only [Option.some.injEq, Prod.mk.injEq] at hsome
          obtain ⟨h1, h2⟩ := hsome; subst h1; subst h2
          rw [hc] at hnone; cases hnone
  · cases hr : rootPair s with
    | none => exact Or.inl (cutAfterJSON_eq_of_rootPair_none s hr)
    | some pr =>
      rcases pr with ⟨op, cl⟩
      rw [cutAfterJSON_eq_of_rootPair_some s op cl hr]
      cases hc : (cutScan op cl s false false 0).1 with
      | none => exact Or.inr (Or.inl rfl)
      | some n => exact Or.inr (Or.inr ⟨s.take n, rfl⟩)

/-- C2 counterexample: on the input consisting of a space, `[`, `]`, the
first non-whitespace character is `[`, yet `cutAfterJSON` fails with the
unsupported-root error, because the source inspects the literal first
character, not the first non-whitespace one. -/
theorem cutAfterJSON_ws_counterexample :
    cutAfterJSON [' ', '[', ']'] = .unsupportedRoot
      ∧ firstNonWs [' ', '[', ']'] = some '[' := by
  constructor <;> decide

/-! ## A grammar of well-formed JSON value texts

The predicates below describe the textual form of JSON values (json.org
grammar, with the lexical classes for numbers slightly generalised, which
only strengthens the extraction theorem).  `JG .val s` states that the
character list `s` is the exact textual span of one well-formed JSON value.
-/

/-- Characters allowed in (a superset of) JSON number tokens. -/
def numChars : List Char :=
  ['0', '1', '2', '3', '4', '5', '6', '7', '8', '9', '-', '+', '.', 'e', 'E']

/-- A (permissive) JSON number token: nonempty, made of number characters. -/
def NumText (s : List Char) : Prop := s ≠ [] ∧ ∀ c ∈ s, c ∈ numChars

/-- Whitespace-only character lists. -/
def WsText (s : List Char) : Prop := ∀ c ∈ s, c ∈ wsChars

/-- The body of a JSON string literal (the characters between the quotes):
a sequence of ordinary characters (neither quote nor backslash) and
two-character escape sequences (backslash followed by any character). -/
inductive StrBody : List Char → Prop where
  | nil : StrBody []
  | chr (c : Char) (s : List Char) : c ≠ '"' → c ≠ '\\' → StrBody s → StrBody (c :: s)
  | esc (c : Char) (s : List Char) : StrBody s → StrBody ('\\' :: (c :: s))

/-- Grammar sorts: a whole value, the inside of an array, a nonempty
element list, the inside of an object, a nonempty member list. -/
inductive JT where
  | val
  | arrI
  | elems
  | objI
  | members

/-- The JSON grammar as an inductive predicate over character lists,
indexed by sort. -/
inductive JG : JT → List Char → Prop where
  | tru : JG .val ['t', 'r', 'u', 'e']
  | fls : JG .val ['f', 'a', 'l', 's', 'e']
  | nul : JG .val ['n', 'u', 'l', 'l']
  | num (s : List Char) : NumText s → JG .val s
  | str (k : List Char) : StrBody k → JG .val ('"' :: (k ++ ['"']))
  | arr (inner : List Char) : JG .arrI inner → JG .val ('[' :: (inner ++ [']']))
  | obj (inner : List Char) : JG .objI inner → JG .val ('{' :: (inner ++ ['}']))
  | arrEmpty (ws : List Char) : WsText ws → JG .arrI ws
  | arrElems (s : List Char) : JG .elems s → JG .arrI s
  | elemsSingle (w1 v w2 : List Char) : WsText w1 → JG .val v → WsText w2 →
      JG .elems (w1 ++ (v ++ w2))
  | elemsCons (w1 v w2 rest : List Char) : WsText w1 → JG .val v → WsText w2 →
      JG .elems rest → JG .elems (w1 ++ (v ++ (w2 ++ (',' :: rest))))
  | objEmpty (ws : List Char) : WsText ws → JG .objI ws
  | objMembers (s : List Char) : JG .members s → JG .objI s
  | membersSingle (w1 k w2 w3 v w4 : List Char) : WsText w1 → StrBody k → WsText w2 →
      WsText w3 → JG .val v → WsText w4 →
      JG .members (w1 ++ ('"' :: (k ++ ('"' :: (w2 ++ (':' :: (w3 ++ (v ++ w4))))))))
  | membersCons (w1 k w2 w3 v w4 rest : List Char) : WsText w1 → StrBody k → WsText w2 →
      WsText w3 → JG .val v → WsText w4 → JG .members rest →
      JG .members (w1 ++ ('"' :: (k ++ ('"' :: (w2 ++ (':' :: (w3 ++ (v ++ (w4 ++ (',' :: rest))))))))))

/-- A well-formed JSON value text. -/
def JsonText (s : List Char) : Prop := JG .val s

/-- Texts the scanner walks through without its counter for the pair
`(op, cl)` ever reaching zero (given it starts positive) and leaving
string-mode off at both ends: sequences of ordinary characters, complete
string literals, and complete bracket groups. -/
inductive Balanced (op cl : Char) : List Char → Prop where
  | nil : Balanced op cl []
  | plain (c : Char) (s : List Char) : c ≠ op → c ≠ cl → c ≠ '"' → c ≠ '\\' →
      Balanced op cl s → Balanced op cl (c :: s)
  | str (k : List Char) (s : List Char) : StrBody k → Balanced op cl s →
      Balanced op cl ('"' :: (k ++ ('"' :: s)))
  | group (inner : List Char) (s : List Char) : Balanced op cl inner → Balanced op cl s →
      Balanced op cl (op :: (inner ++ (cl :: s)))

theorem balanced_append {op cl : Char} {a b : List Char}
    (ha : Balanced op cl a) (hb : Balanced op cl b) : Balanced op cl (a ++ b) := by
  induction ha with
  | nil => simpa using hb
  | plain c s h1 h2 h3 h4 _ ih => exact Balanced.plain c (s ++ b) h1 h2 h3 h4 ih
  | str k s hk _ ih =>
    have := @Balanced.str op cl k (s ++ b) hk ih
    simpa [List.append_assoc] using this
  | group inner s hi hs ihi ihs =>
    have := @Balanced.group op cl inner (s ++ b) hi ihs
    simpa [List.append_assoc] using this

theorem balanced_plains {op cl : Char} {s : List Char}
    (h : ∀ c ∈ s, c ≠ op ∧ c ≠ cl ∧ c ≠ '"' ∧ c ≠ '\\') : Balanced op cl s := by
  induction s with
  | nil => exact Balanced.nil
  | cons c t ih =>
    obtain ⟨h1, h2, h3, h4⟩ := h c (by simp)
    exact Balanced.plain c t h1 h2 h3 h4 (ih fun x hx => h x (by simp [hx]))

/-- The characters that are structural for the scanner: the two bracket
pairs it can track, the quote, and the backslash. -/
def structuralChars : List Char := ['[', ']', '{', '}', '"', '\\']

/-- The two bracket pairs `cutAfterJSON` can select. -/
def GoodPair (op cl : Char) : Prop := op = '[' ∧ cl = ']' ∨ op = '{' ∧ cl = '}'

theorem balanced_safe_list {op cl : Char} (hp : GoodPair op cl) {s : List Char}
    (h : ∀ c ∈ s, c ∉ structuralChars) : Balanced op cl s := by
  apply balanced_plains
  intro c hc
  have hns := h c hc
  rcases hp with ⟨h1, h2⟩ | ⟨h1, h2⟩ <;> subst h1 <;> subst h2 <;>
    simp only [structuralChars, List.mem_cons, List.not_mem_nil, or_false] at hns <;>
    push_neg at hns <;>
    tauto

theorem balanced_cons_safe {op cl : Char} (hp : GoodPair op cl) (c : Char)
    (hc : c ∉ structuralChars) {s : List Char} (hs : Balanced op cl s) :
    Balanced op cl (c :: s) := by
  have h := balanced_append (@balanced_safe_list op cl hp [c] (by simpa using hc)) hs
  simpa using h

theorem balanced_ws {op cl : Char} (hp : GoodPair op cl) {s : List Char} (h : WsText s) :
    Balanced op cl s :=
  balanced_safe_list hp fun c hc =>
    (by decide : ∀ x ∈ wsChars, x ∉ structuralChars) c (h c hc)

/-- Every well-formed JSON text (of any sort) is `Balanced` for both
bracket pairs the scanner can track. -/
theorem jg_balanced {op cl : Char} (hp : GoodPair op cl) :
    ∀ {t : JT} {s : List Char}, JG t s → Balanced op cl s := by
  intro t s h
  induction h with
  | tru => exact balanced_safe_list hp (by decide)
  | fls => exact balanced_safe_list hp (by decide)
  | nul => exact balanced_safe_list hp (by decide)
  | num s hn =>
    exact balanced_safe_list hp fun c hc =>
      (by decide : ∀ x ∈ numChars, x ∉ structuralChars) c (hn.2 c hc)
  | str k hk => exact Balanced.str k [] hk Balanced.nil
  | arr inner hi ih =>
    rcases hp with ⟨h1, h2⟩ | ⟨h1, h2⟩ <;> subst h1 <;> subst h2
    · exact Balanced.group inner [] ih Balanced.nil
    · exact Balanced.plain '[' _ (by decide) (by decide) (by decide) (by decide)
        (balanced_append ih
          (Balanced.plain ']' [] (by decide) (by decide) (by decide) (by decide) Balanced.nil))
  | obj inner hi ih =>
    rcases hp with ⟨h1, h2⟩ | ⟨h1, h2⟩ <;> subst h1 <;> subst h2
    · exact Balanced.plain '{' _ (by decide) (by decide) (by decide) (by decide)
        (balanced_append ih
          (Balanced.plain '}' [] (by decide) (by decide) (by decide) (by decide) Balanced.nil))
    · exact Balanced.group inner [] ih Balanced.nil
  | arrEmpty ws hw => exact balanced_ws hp hw
  | arrElems s hs ih => exact ih
  | elemsSingle w1 v w2 hw1 hv hw2 ih =>
    exact balanced_append (balanced_ws hp hw1) (balanced_append ih (balanced_ws hp hw2))
  | elemsCons w1 v w2 rest hw1 hv hw2 hrest ihv ihrest =>
    exact balanced_append (balanced_ws hp hw1)
      (balanced_append ihv
        (balanced_append (balanced_ws hp hw2)
          (balanced_cons_safe hp ',' (by decide) ihrest)))
  | objEmpty ws hw => exact balanced_ws hp hw
  | objMembers s hs ih => exact ih
  | membersSingle w1 k w2 w3 v w4 hw1 hk hw2 hw3 hv hw4 ih =>
    exact balanced_append (balanced_ws hp hw1)
      (Balanced.str k _ hk
        (balanced_append (balanced_ws hp hw2)
          (balanced_cons_safe hp ':' (by decide)
            (balanced_append (balanced_ws hp hw3)
              (balanced_append ih (balanced_ws hp hw4))))))
  | membersCons w1 k w2 w3 v w4 rest hw1 hk hw2 hw3 hv hw4 hrest ihv ihrest =>
    exact balanced_append (balanced_ws hp hw1)
      (Balanced.str k _ hk
        (balanced_append (balanced_ws hp hw2)
          (balanced_cons_safe hp ':' (by decide)
            (balanced_append (balanced_ws hp hw3)
              (balanced_append ihv
                (balanced_append (balanced_ws hp hw4)
                  (balanced_cons_safe hp ',' (by decide) ihrest)))))))

theorem shift_zero (p : Option Nat × Int) : shift 0 p = p := by
  rcases p with ⟨r, c⟩; cases r <;> simp [shift]

/-- Traversing a string-literal body inside string-mode: the scanner walks
through the body and the closing quote, never touching the counter, and
comes out with string-mode and escape-mode off. -/
theorem strBody_scan {op cl : Char} {k : List Char} (hk : StrBody k) :
    ∀ (s : List Char) (counter : Int),
      cutScan op cl (k ++ ('"' :: s)) true false counter
        = shift (k.length + 1) (cutScan op cl s false false counter) := by
  induction hk with
  | nil =>
    intro s counter
    rw [List.nil_append, cutScan]
    rw [if_pos ⟨rfl, rfl⟩]
    simp
  | chr c t hcq hcb _ ih =>
    intro s counter
    rw [List.cons_append, cutScan]
    rw [if_neg (fun h => hcq h.1)]
    rw [if_pos rfl]
    have hesc : (decide (c = '\\') && !false) = false := by simp [hcb]
    rw [hesc, ih, shift_add]
    congr 1
    simp [Nat.add_comm, Nat.add_assoc, Nat.add_left_comm]
  | esc c t _ ih =>
    intro s counter
    rw [List.cons_append, cutScan]
    rw [if_neg (by simp)]
    rw [if_pos rfl]
    have hesc : (decide ('\\' = '\\') && !false) = true := by simp
    rw [hesc, List.cons_append, cutScan]
    rw [if_neg (fun h => by simpa using h.2)]
    rw [if_pos rfl]
    have hesc2 : (decide (c = '\\') && !true) = false := by simp
    rw [hesc2, ih, shift_add, shift_add]
    congr 1
    simp [Nat.add_comm, Nat.add_assoc, Nat.add_left_comm]

/-- Traversing a balanced chunk with a positive counter: the scanner walks
straight through it, returning to the same state, and the counter never
reaches zero inside. -/
theorem balanced_scan {op cl : Char} (hq : op ≠ '"') (hqc : cl ≠ '"') (hb : op ≠ '\\')
    (hbc : cl ≠ '\\') (hoc : op ≠ cl) {t : List Char} (ht : Balanced op cl t) :
    ∀ (s : List Char) (counter : Int), 0 < counter →
      cutScan op cl (t ++ s) false false counter
        = shift t.length (cutScan op cl s false false counter) := by
  induction ht with
  | nil => intro s counter _; rw [List.nil_append, List.length_nil, shift_zero]
  | plain c tt h1 h2 h3 h4 _ ih =>
    intro s counter hpos
    rw [List.cons_append, cutScan]
    rw [if_neg (fun h => h3 h.1)]
    rw [if_neg (by simp)]
    simp only
    rw [if_neg h1, if_neg h2]
    rw [if_neg (by omega)]
    have hesc : (decide (c = '\\') && !false) = false := by simp [h4]
    rw [hesc, ih s counter hpos, shift_add]
    congr 1
    simp [Nat.add_comm]
  | str k tt hk _ ih =>
    intro s counter hpos
    have hre : ('"' :: (k ++ ('"' :: tt))) ++ s = '"' :: (k ++ ('"' :: (tt ++ s))) := by
      simp [List.append_assoc]
    rw [hre, cutScan]
    rw [if_pos ⟨rfl, rfl⟩]
    have hstr := @strBody_scan op cl _ hk (tt ++ s) counter
    simp only [Bool.not_false]
    rw [hstr, ih s counter hpos, shift_add, shift_add]
    congr 1
    simp [List.length_cons, List.length_append]
    omega
  | group inner tt hi htt ihi ihtt =>
    intro s counter hpos
    have hre : (op :: (inner ++ (cl :: tt))) ++ s = op :: (inner ++ (cl :: (tt ++ s))) := by
      simp [List.append_assoc]
    rw [hre, cutScan]
    rw [if_neg (fun h => hq h.1)]
    rw [if_neg (by simp)]
    simp only [eq_self_iff_true, if_true]
    rw [if_neg (by omega)]
    have hesc : (decide (op = '\\') && !false) = false := by simp [hb]
    rw [hesc, ihi (cl :: (tt ++ s)) (counter + 1) (by omega)]
    rw [cutScan]
    rw [if_neg (fun h => hqc h.1)]
    rw [if_neg (by simp)]
    rw [if_neg (show ¬(cl = op) from fun h => hoc h.symm)]
    simp only [eq_self_iff_true, if_true]
    rw [if_neg (show ¬(counter + 1 - 1 = 0) by omega)]
    have hesc2 : (decide (cl = '\\') && !false) = false := by simp [hbc]
    rw [hesc2]
    have hsimp : counter + 1 - 1 = counter := by omega
    rw [hsimp, ihtt s counter hpos, shift_add, shift_add, shift_add]
    congr 1
    simp [List.length_cons, List.length_append]
    omega

/-- The complete scan of a balanced group from counter 0: the cut happens
exactly at the closing bracket of the root group. -/
theorem cutScan_balanced_root {op cl : Char} (hq : op ≠ '"') (hqc : cl ≠ '"')
    (hb : op ≠ '\\') (hbc : cl ≠ '\\') (hoc : op ≠ cl)
    {inner : List Char} (hi : Balanced op cl inner) (rest : List Char) :
    cutScan op cl (op :: (inner ++ (cl :: rest))) false false 0
      = (some (inner.length + 2), 0) := by
  rw [cutScan]
  rw [if_neg (fun h => hq h.1)]
  rw [if_neg (by simp)]
  simp only [eq_self_iff_true, if_true]
  rw [if_neg (show ¬((0:Int) + 1 = 0) by omega)]
  have hesc : (decide (op = '\\') && !false) = false := by simp [hb]
  rw [hesc, balanced_scan hq hqc hb hbc hoc hi (cl :: rest) (0 + 1) (by omega)]
  rw [cutScan]
  rw [if_neg (fun h => hqc h.1)]
  rw [if_neg (by simp)]
  rw [if_neg (show ¬(cl = op) from fun h => hoc h.symm)]
  simp only [eq_self_iff_true, if_true]
  rw [if_pos (show (0:Int) + 1 - 1 = 0 by omega)]
  simp [shift]
  omega

/-- C1: for every well-formed JSON value text `v` that is an array or an
object (first character `[` or `{`) and every haystack continuing with
arbitrary characters after it, `cutAfterJSON` on `v ++ rest` returns
exactly the span `v`. -/
theorem cutAfterJSON_extracts (v rest : List Char) (hv : JsonText v)
    (hroot : v.head? = some '[' ∨ v.head? = some '{') :
    cutAfterJSON (v ++ rest) = CutResult.ok v := by
  cases hv with
  | tru => rcases hroot with h | h <;> exact absurd h (by decide)
  | fls => rcases hroot with h | h <;> exact absurd h (by decide)
  | nul => rcases hroot with h | h <;> exact absurd h (by decide)
  | num s hn =>
    exfalso
    obtain ⟨hne, hall⟩ := hn
    cases v with
    | nil => exact hne rfl
    | cons c t =>
      have hmem : c ∈ numChars := hall c (by simp)
      have hnb : c ≠ '[' ∧ c ≠ '{' :=
        (by decide : ∀ x ∈ numChars, x ≠ '[' ∧ x ≠ '{') c hmem
      rcases hroot with h | h <;> simp only [List.head?_cons, Option.some.injEq] at h
      · exact hnb.1 h
      · exact hnb.2 h
  | str k hk =>
    rcases hroot with h | h <;> simp only [List.head?_cons, Option.some.injEq] at h <;>
      exact absurd h (by decide)
  | arr inner hi =>
    have hbal : Balanced '[' ']' inner := jg_balanced (Or.inl ⟨rfl, rfl⟩) hi
    have hre : ('[' :: (inner ++ [']'])) ++ rest = '[' :: (inner ++ (']' :: rest)) := by
      simp [List.append_assoc]
    have hscan := cutScan_balanced_root (by decide) (by decide) (by decide) (by decide)
      (by decide) hbal rest
    have hroot2 : rootPair (('[' :: (inner ++ [']'])) ++ rest) = some ('[', ']') := by
      rw [hre]; simp [rootPair]
    rw [cutAfterJSON_eq_of_rootPair_some _ '[' ']' hroot2, hre, hscan]
    show CutResult.ok (('[' :: (inner ++ (']' :: rest))).take (inner.length + 2))
      = CutResult.ok ('[' :: (inner ++ [']']))
    rw [← hre]
    have hlen : ('[' :: (inner ++ [']'])).length = inner.length + 2 := by simp
    rw [← hlen, List.take_left]
  | obj inner hi =>
    have hbal : Balanced '{' '}' inner := jg_balanced (Or.inr ⟨rfl, rfl⟩) hi
    have hre : ('{' :: (inner ++ ['}'])) ++ rest = '{' :: (inner ++ ('}' :: rest)) := by
      simp [List.append_assoc]
    have hscan := cutScan_balanced_root (by decide) (by decide) (by decide) (by decide)
      (by decide) hbal rest
    have hroot2 : rootPair (('{' :: (inner ++ ['}'])) ++ rest) = some ('{', '}') := by
      rw [hre]; simp [rootPair]
    rw [cutAfterJSON_eq_of_rootPair_some _ '{' '}' hroot2, hre, hscan]
    show CutResult.ok (('{' :: (inner ++ ('}' :: rest))).take (inner.length + 2))
      = CutResult.ok ('{' :: (inner ++ ['}']))
    rw [← hre]
    have hlen : ('{' :: (inner ++ ['}'])).length = inner.length + 2 := by simp
    rw [← hlen, List.take_left]

/-- C1 witness: extracting a concrete array text containing one string
element, followed by trailing characters, recovers exactly the array span. -/
theorem cutAfterJSON_extracts_witness :
    cutAfterJSON (['[', '"', 'x', '"', ']'] ++ ['t', 'a', 'i', 'l'])
      = CutResult.ok ['[', '"', 'x', '"', ']'] :=
  cutAfterJSON_extracts ['[', '"', 'x', '"', ']'] ['t', 'a', 'i', 'l']
    (JG.arr ['"', 'x', '"'] (JG.arrElems _ (JG.elemsSingle [] ['"', 'x', '"'] []
      (by simp [WsText])
      (JG.str ['x'] (StrBody.chr 'x' [] (by decide) (by decide) StrBody.nil))
      (by simp [WsText]))))
    (Or.inl rfl)

/-! ## A shallow model of JavaScript values

`JNum` models a JavaScript number: NaN, the two infinities, or a finite
value (represented exactly as a rational; only NaN-ness, infiniteness, sign
and order are relied upon, so the missing double rounding is irrelevant).
`JSVal` models the JSON-like values the library manipulates.  Property
access on `undefined`/`null` raises a `TypeError`, modelled in
`Except EngineErr`. -/

/-- A JavaScript number. -/
inductive JNum where
  | nan
  | inf
  | ninf
  | fin (q : ℚ)
deriving DecidableEq

/-- A JavaScript (JSON-like) value. -/
inductive JSVal where
  | undefined
  | nul
  | bool (b : Bool)
  | num (n : JNum)
  | str (s : String)
  | arr (elems : List JSVal)
  | obj (fields : List (String × JSVal))

/-- The error outcomes of the embedded code: a runtime `TypeError`, the
`throw new Error(...)` sites of `continueRequest` (grouped in the spec
taxonomy as `InvalidDescriptor` and `BudgetMismatch`), the API-error throw
of `fetchSearchResults`, and exhaustion of the recursion fuel (modelling a
pagination chain longer than the fuel allows). -/
inductive EngineErr where
  | typeError
  | invalidDescriptor (msg : String)
  | budgetMismatch
  | apiError (msg : JSVal)
  | outOfFuel

/-- JavaScript truthiness. -/
def truthy : JSVal → Bool
  | .undefined => false
  | .nul => false
  | .bool b => b
  | .num .nan => false
  | .num (.fin q) => decide (q ≠ 0)
  | .num _ => true
  | .str s => decide (s ≠ "")
  | .arr _ => true
  | .obj _ => true

/-- `typeof v === 'string'`. -/
def typeofIsString : JSVal → Bool
  | .str _ => true
  | _ => false

/-- `typeof v === 'object'` (true for null, arrays and plain objects). -/
def typeofIsObject : JSVal → Bool
  | .nul => true
  | .arr _ => true
  | .obj _ => true
  | _ => false

/-- First-match association-list lookup (JavaScript objects cannot carry
duplicate keys, so the first match is the only one for values the program
builds). -/
def lookupField : List (String × JSVal) → String → Option JSVal
  | [], _ => none
  | (k, v) :: rest, key => if k = key then some v else lookupField rest key

/-- Property read `v[key]`: a `TypeError` on `undefined`/`null`, the field
(or `undefined`) on objects, `undefined` on other values (named properties
of arrays and primitives are not used by the embedded code). -/
def jsGet : JSVal → String → Except EngineErr JSVal
  | .undefined, _ => .error .typeError
  | .nul, _ => .error .typeError
  | .obj fs, key => .ok ((lookupField fs key).getD .undefined)
  | _, _ => .ok .undefined

/-- Replace the first binding of `key` (or append one). -/
def setField : List (String × JSVal) → String → JSVal → List (String × JSVal)
  | [], key, v => [(key, v)]
  | (k, w) :: rest, key, v =>
    if k = key then (k, v) :: rest else (k, w) :: setField rest key v

/-- Property write `target[key] = v`: `TypeError` on `undefined`/`null`,
an updated object on objects, and a silent no-op on other values
(non-strict-mode JavaScript; named properties added to arrays are not
modelled, the embedded code never reads one back). -/
def jsSet : JSVal → String → JSVal → Except EngineErr JSVal
  | .undefined, _, _ => .error .typeError
  | .nul, _, _ => .error .typeError
  | .obj fs, key, v => .ok (.obj (setField fs key v))
  | other, _, _ => .ok other

/-- Index read `v[i]` on an array value (only used after an
`Array.isArray` guard in the source). -/
def jsIdx (v : JSVal) (i : Nat) : JSVal :=
  match v with
  | .arr xs => xs.getD i .undefined
  | _ => .undefined

/-- `for (const x of v)` / spread: arrays iterate their elements, strings
iterate their characters, everything else raises a `TypeError`. -/
def jsIterate : JSVal → Except EngineErr (List JSVal)
  | .arr xs => .ok xs
  | .str s => .ok (s.data.map fun c => .str (String.mk [c]))
  | _ => .error .typeError

/-- Calling an array method (`.map`, `.filter`, `.find`, `.forEach`) on a
non-array raises a `TypeError`. -/
def asArray : JSVal → Except EngineErr (List JSVal)
  | .arr xs => .ok xs
  | _ => .error .typeError

/-- `Object.prototype.hasOwnProperty.call(v, key)`: `TypeError` on
`undefined`/`null`, key membership on objects, `false` on the remaining
values (their own properties are never the renderer keys the code tests). -/
def hasOwnProp : JSVal → String → Except EngineErr Bool
  | .undefined, _ => .error .typeError
  | .nul, _ => .error .typeError
  | .obj fs, key => .ok (fs.any fun f => f.1 = key)
  | _, _ => .ok false

/-! ## ToNumber coercion

`isNaN`, `isFinite`, `-=` and `<` in the source all apply the JavaScript
`ToNumber` coercion; the string branch below follows the ECMAScript
StringNumericLiteral grammar (trimming, signs, `Infinity`, decimal with
fraction and exponent, hex/binary/octal radix literals), with values beyond
the double range mapped to the infinities. -/

/-- Characters trimmed by `ToNumber` on strings (ASCII fragment). -/
def jsTrimChar (c : Char) : Bool :=
  c = ' ' || c = '\t' || c = '\n' || c = '\r' || c = '\x0b' || c = '\x0c'

def isDigitCh (c : Char) : Bool := '0' ≤ c && c ≤ '9'

def isHexCh (c : Char) : Bool :=
  isDigitCh c || ('a' ≤ c && c ≤ 'f') || ('A' ≤ c && c ≤ 'F')

def isBinCh (c : Char) : Bool := c = '0' || c = '1'

def isOctCh (c : Char) : Bool := '0' ≤ c && c ≤ '7'

def digitVal (c : Char) : Nat :=
  if isDigitCh c then c.toNat - '0'.toNat
  else if 'a' ≤ c && c ≤ 'f' then c.toNat - 'a'.toNat + 10
  else if 'A' ≤ c && c ≤ 'F' then c.toNat - 'A'.toNat + 10
  else 0

def digitsToNat (base : Nat) (ds : List Char) : Nat :=
  ds.foldl (fun a c => base * a + digitVal c) 0

/-- Kernel-reducible rational arithmetic (`Rat.add` and friends are marked
irreducible upstream, which blocks evaluation inside witnesses; these
equivalents via `mkRat` evaluate, and agree with the ring operations). -/
def qAdd (a b : ℚ) : ℚ := mkRat (a.num * b.den + b.num * a.den) (a.den * b.den)

def qSub (a b : ℚ) : ℚ := mkRat (a.num * b.den - b.num * a.den) (a.den * b.den)

def qMul (a b : ℚ) : ℚ := mkRat (a.num * b.num) (a.den * b.den)

def qOfNat (n : Nat) : ℚ := mkRat n 1

theorem qAdd_eq (a b : ℚ) : qAdd a b = a + b := (Rat.add_def' a b).symm

theorem qSub_eq (a b : ℚ) : qSub a b = a - b := (Rat.sub_def' a b).symm

theorem qOfNat_eq (n : Nat) : qOfNat n = (n : ℚ) := by
  simp [qOfNat, Rat.mkRat_one]

/-- Ten to an integer power, as an exact rational. -/
def qPow10 (ex : Int) : ℚ :=
  if 0 ≤ ex then qOfNat (10 ^ ex.toNat) else mkRat 1 (10 ^ (-ex).toNat)

/-- Exponent part after `e`/`E`: optional sign, then at least one digit
consuming the rest of the string. -/
def parseExpPart : List Char → Option Int
  | '+' :: r => if r ≠ [] ∧ r.all isDigitCh then some (digitsToNat 10 r) else none
  | '-' :: r => if r ≠ [] ∧ r.all isDigitCh then some (-(digitsToNat 10 r : Int)) else none
  | r => if r ≠ [] ∧ r.all isDigitCh then some (digitsToNat 10 r) else none

/-- Unsigned decimal literal `digits [. digits] [exp]`, consuming the whole
string, with a nonempty integer-or-fraction part. -/
def parseDecBody (s : List Char) : Option ℚ :=
  let d1 := s.takeWhile isDigitCh
  let r1 := s.dropWhile isDigitCh
  match r1 with
  | [] => if d1 = [] then none else some (qOfNat (digitsToNat 10 d1))
  | '.' :: r2 =>
    let d2 := r2.takeWhile isDigitCh
    let r3 := r2.dropWhile isDigitCh
    if d1 = [] ∧ d2 = [] then none
    else
      let mant : ℚ := qAdd (qOfNat (digitsToNat 10 d1)) (mkRat (digitsToNat 10 d2) (10 ^ d2.length))
      match r3 with
      | [] => some mant
      | e :: r4 =>
        if e = 'e' ∨ e = 'E' then (parseExpPart r4).map fun ex => qMul mant (qPow10 ex)
        else none
  | e :: r2 =>
    if (e = 'e' ∨ e = 'E') ∧ d1 ≠ [] then
      (parseExpPart r2).map fun ex => qMul (qOfNat (digitsToNat 10 d1)) (qPow10 ex)
    else none

/-- The smallest magnitude that rounds to a double infinity. -/
def overflowBound : ℚ := qOfNat (2 ^ 1024 - 2 ^ 970)

/-- Classify an exact value as a JavaScript number (overflow to infinity). -/
def finToJNum (q : ℚ) : JNum :=
  if overflowBound ≤ q then .inf else if q ≤ -overflowBound then .ninf else .fin q

/-- Signed decimal-or-Infinity tail of a string numeric literal. -/
def strToNumSigned (body : List Char) (neg : Bool) : JNum :=
  if body = ['I', 'n', 'f', 'i', 'n', 'i', 't', 'y'] then (if neg then .ninf else .inf)
  else
    match parseDecBody body with
    | none => .nan
    | some q => finToJNum (if neg then -q else q)

def radixToJNum (pred : Char → Bool) (base : Nat) (r : List Char) : JNum :=
  if r ≠ [] ∧ r.all pred then finToJNum (qOfNat (digitsToNat base r)) else .nan

/-- `ToNumber` on a string. -/
def strToNum (s : String) : JNum :=
  let t := (s.data.dropWhile jsTrimChar).reverse.dropWhile jsTrimChar |>.reverse
  match t with
  | [] => .fin 0
  | '0' :: 'x' :: r => radixToJNum isHexCh 16 r
  | '0' :: 'X' :: r => radixToJNum isHexCh 16 r
  | '0' :: 'b' :: r => radixToJNum isBinCh 2 r
  | '0' :: 'B' :: r => radixToJNum isBinCh 2 r
  | '0' :: 'o' :: r => radixToJNum isOctCh 8 r
  | '0' :: 'O' :: r => radixToJNum isOctCh 8 r
  | '+' :: r => strToNumSigned r false
  | '-' :: r => strToNumSigned r true
  | r => strToNumSigned r false

/-- Coercion of the single element of a singleton array (through its
`join(',')` string, hence the quirks for `undefined`/`null`/booleans;
flattening of a nested array is not modelled and yields NaN). -/
def toNumberLeaf : JSVal → JNum
  | .undefined => .fin 0
  | .nul => .fin 0
  | .bool _ => .nan
  | .num n => n
  | .str s => strToNum s
  | .obj _ => .nan
  | .arr _ => .nan

/-- `ToNumber`.  Arrays coerce through their `join(',')` string: the empty
array to 0, a one-element array through its element, longer arrays and
plain objects to NaN. -/
def toNumber : JSVal → JNum
  | .undefined => .nan
  | .nul => .fin 0
  | .bool b => .fin (if b then 1 else 0)
  | .num n => n
  | .str s => strToNum s
  | .obj _ => .nan
  | .arr [] => .fin 0
  | .arr [x] => toNumberLeaf x
  | .arr _ => .nan

def JNum.isNan : JNum → Bool
  | .nan => true
  | _ => false

def JNum.isFiniteNum : JNum → Bool
  | .fin _ => true
  | _ => false

/-- The JavaScript `<` relation on numbers (false whenever NaN is
involved). -/
def JNum.lt : JNum → JNum → Bool
  | .nan, _ => false
  | _, .nan => false
  | .ninf, .ninf => false
  | .ninf, _ => true
  | _, .ninf => false
  | .fin a, .fin b => decide (a < b)
  | .fin _, .inf => true
  | .inf, _ => false

/-- JavaScript subtraction on numbers. -/
def JNum.sub : JNum → JNum → JNum
  | .nan, _ => .nan
  | _, .nan => .nan
  | .inf, .inf => .nan
  | .inf, _ => .inf
  | .ninf, .ninf => .nan
  | .ninf, _ => .ninf
  | .fin _, .inf => .ninf
  | .fin _, .ninf => .inf
  | .fin a, .fin b => .fin (qSub a b)

/-- `v === Infinity`. -/
def isInfV : JSVal → Bool
  | .num .inf => true
  | _ => false

/-- `v === null`. -/
def isNullV : JSVal → Bool
  | .nul => true
  | _ => false

/-- `v < q` with a number literal on the right (numeric comparison after
`ToNumber` of the left operand). -/
def jsLtNum (v : JSVal) (q : ℚ) : Bool := (toNumber v).lt (.fin q)

/-! ## Object keys and literals used by the source -/

def contentsKey : String := "contents"
def twoColKey : String := "twoColumnSearchResultsRenderer"
def primaryContentsKey : String := "primaryContents"
def sectionListKey : String := "sectionListRenderer"
def richGridKey : String := "richGridRenderer"
def subMenuKey : String := "subMenu"
def submenuKey : String := "submenu"
def searchSubMenuKey : String := "searchSubMenuRenderer"
def groupsKey : String := "groups"
def headerKey : String := "header"
def searchHeaderKey : String := "searchHeaderRenderer"
def searchFilterButtonKey : String := "searchFilterButton"
def buttonRendererKey : String := "buttonRenderer"
def commandKey : String := "command"
def openPopupKey : String := "openPopupAction"
def popupKey : String := "popup"
def dialogKey : String := "searchFilterOptionsDialogRenderer"
def sfgRendererKey : String := "searchFilterGroupRenderer"
def filtersKey : String := "filters"
def sfrKey : String := "searchFilterRenderer"
def navKey : String := "navigationEndpoint"
def labelKey : String := "label"
def tooltipKey : String := "tooltip"
def cmdMetaKey : String := "commandMetadata"
def webCmdKey : String := "webCommandMetadata"
def urlKey : String := "url"
def titleKey : String := "title"
def simpleTextKey : String := "simpleText"
def runsKey : String := "runs"
def textKey : String := "text"
def itemSectionKey : String := "itemSectionRenderer"
def continuationItemKey : String := "continuationItemRenderer"
def richItemKey : String := "richItemRenderer"
def richSectionKey : String := "richSectionRenderer"
def contentKey : String := "content"
def orcKey : String := "onResponseReceivedCommands"
def appendActionKey : String := "appendContinuationItemsAction"
def continuationItemsKey : String := "continuationItems"
def contEndpointKey : String := "continuationEndpoint"
def contCommandKey : String := "continuationCommand"
def tokenKey : String := "token"
def limitKey : String := "limit"
def pagesKey : String := "pages"
def searchKey : String := "search"
def alertsKey : String := "alerts"
def alertRendererKey : String := "alertRenderer"
def typeKey : String := "type"
def estResultsKey : String := "estimatedResults"
def refinementsKey : String := "refinements"
def emptyStr : String := ""
def unknownCategoryStr : String := "Unknown Category"
def noMessageStr : String := "* no message *"
def errorTypeStr : String := "ERROR"

/-! ## Effectful list helpers (the array methods used by the source) -/

/-- `Array.prototype.map` with an effectful callback. -/
def mapA {α : Type} (f : α → Except EngineErr JSVal) : List α → Except EngineErr (List JSVal)
  | [] => .ok []
  | x :: xs => do
    let y ← f x
    let ys ← mapA f xs
    return y :: ys

/-- `Array.prototype.filter` with an effectful predicate. -/
def filterA (p : JSVal → Except EngineErr Bool) : List JSVal → Except EngineErr (List JSVal)
  | [] => .ok []
  | x :: xs => do
    let b ← p x
    let rest ← filterA p xs
    return if b then x :: rest else rest

/-- `Array.prototype.find`: the first match, or `undefined`. -/
def findA (p : JSVal → Except EngineErr Bool) : List JSVal → Except EngineErr JSVal
  | [] => .ok .undefined
  | x :: xs => do
    let b ← p x
    if b then return x else findA p xs

/-- `Array.prototype.forEach` threading an accumulator. -/
def foldA {σ α : Type} (f : σ → α → Except EngineErr σ) : σ → List α → Except EngineErr σ
  | s, [] => .ok s
  | s, x :: xs => do
    let s2 ← f s x
    foldA f s2 xs

def isUndefV : JSVal → Bool
  | .undefined => true
  | _ => false

/-! ## parseText (utils.js lines 100-108) -/

/-- One element of `runs.map(a => a.text).join('')`: `Array.prototype.join`
maps `undefined` and `null` to the empty string and coerces the rest with
the platform ToString, taken as the parameter `toStr`. -/
def joinElem (toStr : JSVal → String) : JSVal → String
  | .undefined => emptyStr
  | .nul => emptyStr
  | v => toStr v

def joinedRuns (toStr : JSVal → String) (texts : List JSVal) : String :=
  texts.foldl (fun acc v => acc ++ joinElem toStr v) emptyStr

/-- `parseText` from utils.js: non-objects give the default, a truthy
`simpleText` is returned as-is, an array `runs` is joined, anything else
gives the default. -/
def parseTextM (toStr : JSVal → String) (txt deflt : JSVal) : Except EngineErr JSVal := do
  if ¬ typeofIsObject txt then return deflt
  let st ← jsGet txt simpleTextKey
  if truthy st then return st
  let runs ← jsGet txt runsKey
  match runs with
  | .arr xs =>
    let texts ← mapA (fun a => jsGet a textKey) xs
    return .str (joinedRuns toStr texts)
  | _ => return deflt

/-! ## parseFilters (utils.js lines 23-57) -/

/-- One parsed filter option. -/
structure FilterOpt where
  name : JSVal
  active : Bool
  url : Option String
  description : JSVal

/-- One filter group: the `Map` of options plus its `active` slot. -/
structure FilterGroup where
  entries : List (JSVal × FilterOpt)
  active : Option FilterOpt

/-- Key equality of the JavaScript `Map`s built by `parseFilters`
(SameValueZero): structural on primitives; container keys compare by
reference and the containers reaching a `Map.set` here are distinct fresh
values, hence never equal. -/
def jsKeyEq : JSVal → JSVal → Bool
  | .undefined, .undefined => true
  | .nul, .nul => true
  | .bool a, .bool b => a == b
  | .num a, .num b => a == b
  | .str a, .str b => a == b
  | _, _ => false

/-- `Map.prototype.set`: replace the binding of an equal key in place, else
append. -/
def mapSet {β : Type} : List (JSVal × β) → JSVal → β → List (JSVal × β)
  | [], k, v => [(k, v)]
  | (k0, v0) :: rest, k, v =>
    if jsKeyEq k0 k then (k0, v) :: rest else (k0, v0) :: mapSet rest k v

/-- The body of the inner `forEach` over one group's filters. -/
def parseFilterOne (toStr : JSVal → String) (urlRes : JSVal → String)
    (grp : FilterGroup) (f : JSVal) : Except EngineErr FilterGroup := do
  let sfr ← jsGet f sfrKey
  let nav ← jsGet sfr navKey
  let isSet := !(truthy nav)
  let lab ← jsGet sfr labelKey
  let nm ← parseTextM toStr lab (.str emptyStr)
  let url ← if isSet then pure (none : Option String) else do
    let cm ← jsGet nav cmdMetaKey
    let w ← jsGet cm webCmdKey
    let u ← jsGet w urlKey
    pure (some (urlRes u))
  let tp ← jsGet sfr tooltipKey
  let pf : FilterOpt := { name := nm, active := isSet, url := url, description := tp }
  let grp2 := if isSet then { grp with active := some pf } else grp
  return { grp2 with entries := mapSet grp2.entries nm pf }

/-- The body of the outer `forEach` over filter groups. -/
def parseFilterGroup (toStr : JSVal → String) (urlRes : JSVal → String)
    (acc : List (JSVal × FilterGroup)) (g : JSVal) :
    Except EngineErr (List (JSVal × FilterGroup)) := do
  let sfgr ← jsGet g sfgRendererKey
  let fs ← jsGet sfgr filtersKey
  let flist ← asArray fs
  let grp ← foldA (parseFilterOne toStr urlRes) ⟨[], none⟩ flist
  let ttl ← jsGet sfgr titleKey
  let key ← parseTextM toStr ttl (.str unknownCategoryStr)
  return mapSet acc key grp

/-- `parseFilters` from utils.js.  `toStr` and `urlRes` model the platform
string coercion and `new URL(u, BASE_URL).toString()`. -/
def parseFiltersM (toStr : JSVal → String) (urlRes : JSVal → String) (json : JSVal) :
    Except EngineErr (List (JSVal × FilterGroup)) := do
  let c ← jsGet json contentsKey
  let t ← jsGet c twoColKey
  let pc ← jsGet t primaryContentsKey
  let slr ← jsGet pc sectionListKey
  let wrapper ← if truthy slr then pure slr else jsGet pc richGridKey
  let sm1 ← jsGet wrapper subMenuKey
  let sm ← if truthy sm1 then pure sm1 else jsGet wrapper submenuKey
  let ssr ← jsGet sm searchSubMenuKey
  let fw0 ← jsGet ssr groupsKey
  let fw ← if isUndefV fw0 then do
      let h ← jsGet json headerKey
      let shr ← jsGet h searchHeaderKey
      let sfb ← jsGet shr searchFilterButtonKey
      let br ← jsGet sfb buttonRendererKey
      let cmd ← jsGet br commandKey
      let opa ← jsGet cmd openPopupKey
      let popup ← jsGet opa popupKey
      let d ← jsGet popup dialogKey
      let g ← jsGet d groupsKey
      pure (if truthy g then g else JSVal.arr [])
    else pure fw0
  let groups ← asArray fw
  foldA (parseFilterGroup toStr urlRes) [] groups

/-! ## parseWrapper and parsePage2Wrapper (utils.js lines 208-251) -/

/-- `Object.keys(x)[0] === key`: TypeError on `undefined`/`null`, the
first own key on objects, false on the rest (keys of arrays/strings are
index strings, never the renderer keys tested here). -/
def firstKeyIs (x : JSVal) (key : String) : Except EngineErr Bool :=
  match x with
  | .undefined => .error .typeError
  | .nul => .error .typeError
  | .obj fs => .ok (match fs.head? with | some f => decide (f.1 = key) | none => false)
  | _ => .ok false

/-- The uniform shape produced by the first-page adapter. -/
structure PageBatch where
  rawItems : JSVal
  continuation : JSVal

/-- The grid branch's per-entry map
`x => (x.richItemRenderer || x.richSectionRenderer).content`. -/
def gridItemBase (x : JSVal) : Except EngineErr JSVal := do
  let rir ← jsGet x richItemKey
  let base ← if truthy rir then pure rir else jsGet x richSectionKey
  jsGet base contentKey

/-- `parseWrapper` from utils.js: the sectioned branch, the grid branch, or
the untouched initial `{ rawItems: [], continuation: null }`. -/
def parseWrapperM (pc : JSVal) : Except EngineErr PageBatch := do
  let slr ← jsGet pc sectionListKey
  if truthy slr then
    let cts ← jsGet slr contentsKey
    let l ← asArray cts
    let sec ← findA (fun x => firstKeyIs x itemSectionKey) l
    let isr ← jsGet sec itemSectionKey
    let raw ← jsGet isr contentsKey
    let cont ← findA (fun x => firstKeyIs x continuationItemKey) l
    return { rawItems := raw, continuation := cont }
  else
    let rgr ← jsGet pc richGridKey
    if truthy rgr then
      let cts ← jsGet rgr contentsKey
      let l ← asArray cts
      let nonMarkers ← filterA (fun x => do
        let b ← hasOwnProp x continuationItemKey
        pure (!b)) l
      let mapped ← mapA gridItemBase nonMarkers
      let cont ← findA (fun x => hasOwnProp x continuationItemKey) l
      return { rawItems := .arr mapped, continuation := cont }
    else
      return { rawItems := .arr [], continuation := .nul }

/-- The loop body of `parsePage2Wrapper`, threading the accumulated raw
items and the current continuation slot. -/
def parsePage2Aux : List JSVal → List JSVal → JSVal → Except EngineErr (List JSVal × JSVal)
  | [], acc, cont => .ok (acc, cont)
  | ci :: rest, acc, cont => do
    let h1 ← hasOwnProp ci itemSectionKey
    if h1 then
      let isr ← jsGet ci itemSectionKey
      let c ← jsGet isr contentsKey
      let xs ← jsIterate c
      parsePage2Aux rest (acc ++ xs) cont
    else
      let h2 ← hasOwnProp ci richItemKey
      if h2 then
        let r ← jsGet ci richItemKey
        let x ← jsGet r contentKey
        parsePage2Aux rest (acc ++ [x]) cont
      else
        let h3 ← hasOwnProp ci richSectionKey
        if h3 then
          let r ← jsGet ci richSectionKey
          let x ← jsGet r contentKey
          parsePage2Aux rest (acc ++ [x]) cont
        else
          let h4 ← hasOwnProp ci continuationItemKey
          if h4 then parsePage2Aux rest acc ci
          else parsePage2Aux rest acc cont

/-- `parsePage2Wrapper` from utils.js. -/
def parsePage2WrapperM (l : List JSVal) : Except EngineErr (List JSVal × JSVal) :=
  parsePage2Aux l [] .nul

/-! ## between, jsonAfter and parseBody (utils.js lines 65-90, 259-289) -/

def anchorLit : String := "var ytInitialData = "
def apiKeyAnchor1 : String := "INNERTUBE_API_KEY\":\""
def apiKeyAnchor2 : String := "innertubeApiKey\":\""
def versionAnchor1 : String := "INNERTUBE_CONTEXT_CLIENT_VERSION\":\""
def versionAnchor2 : String := "innertube_context_client_version\":\""
def quoteStr : String := "\""

/-- `String.prototype.indexOf` of a substring, on character lists. -/
def strIndexOfAux (needle : List Char) : List Char → Nat → Option Nat
  | [], i => if needle = [] then some i else none
  | c :: rest, i =>
    if (c :: rest).take needle.length = needle then some i
    else strIndexOfAux needle rest (i + 1)

def strIndexOf (hay needle : List Char) : Option Nat := strIndexOfAux needle hay 0

/-- `between` from utils.js: the text strictly between the first occurrence
of `left` and the next occurrence of `right`; empty when either delimiter
is absent. -/
def between (hay left right : List Char) : List Char :=
  match strIndexOf hay left with
  | none => []
  | some start =>
    let h2 := hay.drop (start + left.length)
    match strIndexOf h2 right with
    | none => []
    | some e => h2.take e

/-- `jsonAfter` from utils.js, with `JSON.parse` abstracted as the
parameter `jsonParse` (`none` where `JSON.parse` would throw).  Its
internal `try/catch` maps a `cutAfterJSON` throw and a parse failure both
to `null`. -/
def jsonAfter (jsonParse : List Char → Option JSVal) (haystack left : List Char) :
    Option JSVal :=
  match strIndexOf haystack left with
  | none => none
  | some pos =>
    match cutAfterJSON (haystack.drop (pos + left.length)) with
    | .ok s => jsonParse s
    | _ => none

def clientKey : String := "client"
def userKey : String := "user"
def requestKey : String := "request"
def utcKey : String := "utcOffsetMinutes"
def glKey : String := "gl"
def hlKey : String := "hl"
def clientNameKey : String := "clientName"
def clientVersionKey : String := "clientVersion"
def enableSafetyModeKey : String := "enableSafetyMode"
def safeSearchKey : String := "safeSearch"
def usStr : String := "US"
def enStr : String := "en"
def webStr : String := "WEB"
def placeholderVersionStr : String := "<important information>"

/-- `DEFAULT_CONTEXT` from utils.js. -/
def DEFAULT_CONTEXT : JSVal :=
  .obj [
    (clientKey, .obj [
      (utcKey, .num (.fin 0)),
      (glKey, .str usStr),
      (hlKey, .str enStr),
      (clientNameKey, .str webStr),
      (clientVersionKey, .str placeholderVersionStr)]),
    (userKey, .obj []),
    (requestKey, .obj [])]

/-- The record produced by `parseBody`. -/
structure Decoded where
  json : Option JSVal
  apiKey : List Char
  context : JSVal

/-- `parseBody` from utils.js: the embedded document (`null` on any
extraction failure, the outer `try/catch` absorbing every throw),
best-effort credential and client-version scraping through `between`, and
the execution context built from a deep copy of `DEFAULT_CONTEXT`. -/
def parseBodyM (jsonParse : List Char → Option JSVal) (body : List Char) (options : JSVal) :
    Except EngineErr Decoded := do
  let json := jsonAfter jsonParse body anchorLit.data
  let a1 := between body apiKeyAnchor1.data quoteStr.data
  let apiKey := if a1 ≠ [] then a1 else between body apiKeyAnchor2.data quoteStr.data
  let v1 := between body versionAnchor1.data quoteStr.data
  let clientVersion := if v1 ≠ [] then v1 else between body versionAnchor2.data quoteStr.data
  let client0 ← jsGet DEFAULT_CONTEXT clientKey
  let client1 ← jsSet client0 clientVersionKey (.str clientVersion.asString)
  let og ← jsGet options glKey
  let client2 ← if truthy og then jsSet client1 glKey og else pure client1
  let oh ← jsGet options hlKey
  let client3 ← if truthy oh then jsSet client2 hlKey oh else pure client2
  let ou ← jsGet options utcKey
  let client4 ← if truthy ou then jsSet client3 utcKey ou else pure client3
  let context1 ← jsSet DEFAULT_CONTEXT clientKey client4
  let os ← jsGet options safeSearchKey
  let context2 ← if truthy os then do
      let user0 ← jsGet context1 userKey
      let user1 ← jsSet user0 enableSafetyModeKey (.bool true)
      jsSet context1 userKey user1
    else pure context1
  return { json := json, apiKey := apiKey, context := context2 }

/-! ## The pagination engine (main.js) -/

/-- External collaborators and the network oracle: `fetch n` is the parsed
JSON body of the continuation POST issued with `n` units of fuel left (so
an arbitrary sequence of upstream responses is expressible);
`parseItemFirst` / `parseItemNext` model the external item mapper
(`parseItem(item, result)` on the first page, `parseItem(item)` on
continuation pages; being abstract, the accumulator argument is folded
into the function); `toStr` / `urlRes` as in `parseFiltersM`. -/
structure Env where
  fetch : Nat → JSVal
  parseItemFirst : JSVal → JSVal
  parseItemNext : JSVal → JSVal
  toStr : JSVal → String
  urlRes : JSVal → String

/-- `.filter((_, index) => index < limit)`: keep the elements whose
position passes the JavaScript `<` against the limit value. -/
def limitFilter (lim : JSVal) : List JSVal → Nat → List JSVal
  | [], _ => []
  | x :: xs, i =>
    if (JNum.fin (qOfNat i)).lt (toNumber lim) then x :: limitFilter lim xs (i + 1)
    else limitFilter lim xs (i + 1)

/-- The token extraction
`cont ? cont.continuationItemRenderer.continuationEndpoint.continuationCommand.token : null`. -/
def tokenOf (cont : JSVal) : Except EngineErr JSVal :=
  if truthy cont then do
    let a ← jsGet cont continuationItemKey
    let b ← jsGet a contEndpointKey
    let c ← jsGet b contCommandKey
    jsGet c tokenKey
  else pure .nul

/-- What `fetchNextPage` resolves with. -/
structure ContResult where
  items : List JSVal
  continuation : JSVal

/-- What `fetchSearchResults` resolves with. -/
structure SearchResult where
  originalQuery : JSVal
  correctedQuery : JSVal
  results : JNum
  activeFilters : List FilterOpt
  refinements : List JSVal
  items : List JSVal
  continuation : JSVal

/-- `v === str`. -/
def strictEqStr (v : JSVal) (s : String) : Bool :=
  match v with
  | .str t => decide (t = s)
  | _ => false

/-- `Number(x) || 0`. -/
def numOrZero (n : JNum) : JNum := if n = .nan ∨ n = .fin 0 then .fin 0 else n

/-- `fetchNextPage` from main.js.  The mutations of the shared `options`
object are modelled by threading its value: the second component of a
successful result is the final state of the caller-supplied options.  Fuel
bounds the recursion depth (unbounded in the source); exhausting it is the
`outOfFuel` outcome, which the source itself never produces. -/
def fetchNextPageM (env : Env) : Nat → JSVal → JSVal → JSVal → JSVal →
    Except EngineErr (ContResult × JSVal)
  | 0, _, _, _, _ => .error .outOfFuel
  | n + 1, apiKey, token, context, options => do
    let response := env.fetch n
    let orc ← jsGet response orcKey
    match orc with
    | .arr cmds => do
      let cmd0 := cmds.headD .undefined
      let app ← jsGet cmd0 appendActionKey
      let ci ← jsGet app continuationItemsKey
      let cil ← jsIterate ci
      let batch ← parsePage2WrapperM cil
      let lim ← jsGet options limitKey
      let parsed := limitFilter lim ((batch.1.map env.parseItemNext).filter truthy) 0
      let options1 ← jsSet options limitKey (.num ((toNumber lim).sub (.fin (qOfNat parsed.length))))
      let pg ← jsGet options1 pagesKey
      let options2 ← jsSet options1 pagesKey (.num ((toNumber pg).sub (.fin 1)))
      let nextToken ← tokenOf batch.2
      let lim2 ← jsGet options2 limitKey
      let pg2 ← jsGet options2 pagesKey
      if ¬ truthy nextToken ∨ jsLtNum lim2 1 ∨ jsLtNum pg2 1 then
        let contV := if truthy nextToken ∧ isInfV lim2 then
            JSVal.arr [apiKey, nextToken, context, options2]
          else JSVal.nul
        return ({ items := parsed, continuation := contV }, options2)
      else do
        let (res, optsF) ← fetchNextPageM env n apiKey nextToken context options2
        return ({ items := parsed ++ res.items, continuation := res.continuation }, optsF)
    | _ => return ({ items := [], continuation := .nul }, options)

/-- `fetchSearchResults` from main.js, from the point where the decoded
response (`parsedResponse.json`, `.apiKey`, `.context`) and the normalized
options are at hand: the alerts check, the result skeleton, the (discarded)
refinements mapping, the first-page adapter, item mapping and truncation,
the budget decrements, the filter catalog, the continuation descriptor and
the recursion into `fetchNextPage`. -/
def alertsCheckM (toStr : JSVal → String) (json : JSVal) : Except EngineErr Unit := do
  let al ← jsGet json alertsKey
  let cts0 ← jsGet json contentsKey
  if truthy al ∧ ¬ truthy cts0 then
    let alerts ← asArray al
    let err ← findA (fun alert => do
        let ar ← jsGet alert alertRendererKey
        if truthy ar then do
          let t ← jsGet ar typeKey
          pure (strictEqStr t errorTypeStr)
        else pure false) alerts
    if truthy err then
      let ar ← jsGet err alertRendererKey
      let t ← jsGet ar textKey
      let m ← parseTextM toStr t (.str noMessageStr)
      throw (.apiError m)
    else pure ()
  else pure ()

def fetchSearchResultsM (env : Env) (fuel : Nat) (json apiKey context opts : JSVal) :
    Except EngineErr (SearchResult × JSVal) := do
  alertsCheckM env.toStr json
  let srch ← jsGet opts searchKey
  let est ← jsGet json estResultsKey
  let results0 := numOrZero (toNumber est)
  let _refs ← jsGet json refinementsKey
  let cts0 ← jsGet json contentsKey
  let tcr ← jsGet cts0 twoColKey
  let pc ← jsGet tcr primaryContentsKey
  let batch ← parseWrapperM pc
  let rawArr ← asArray batch.rawItems
  let lim ← jsGet opts limitKey
  let items := limitFilter lim ((rawArr.map env.parseItemFirst).filter truthy) 0
  let opts1 ← jsSet opts limitKey (.num ((toNumber lim).sub (.fin (qOfNat items.length))))
  let pg ← jsGet opts1 pagesKey
  let opts2 ← jsSet opts1 pagesKey (.num ((toNumber pg).sub (.fin 1)))
  let cat ← parseFiltersM env.toStr env.urlRes json
  let activeFs := (cat.map fun g => g.2.active).reduceOption
  let token ← tokenOf batch.continuation
  let lim2 ← jsGet opts2 limitKey
  let cont0 := if truthy token ∧ isInfV lim2 then
      JSVal.arr [apiKey, token, context, opts2]
    else JSVal.nul
  let pg2 ← jsGet opts2 pagesKey
  if ¬ truthy token ∨ jsLtNum lim2 1 ∨ jsLtNum pg2 1 then
    return ({ originalQuery := srch, correctedQuery := srch, results := results0,
              activeFilters := activeFs, refinements := [], items := items,
              continuation := cont0 }, opts2)
  else do
    let (next, optsF) ← fetchNextPageM env fuel apiKey token context opts2
    return ({ originalQuery := srch, correctedQuery := srch, results := results0,
              activeFilters := activeFs, refinements := [], items := items ++ next.items,
              continuation := next.continuation }, optsF)

def contArrMsg : String := "Invalid continuation array"
def apiKeyMsg : String := "Invalid apiKey"
def tokenMsg : String := "Invalid token"
def contextMsg : String := "Invalid context"
def optionsMsg : String := "Invalid options"

/-- The in-place rewrite `continueRequest` applies to the descriptor's
options before re-entering `fetchNextPage`: `pages = 1; limit = Infinity`
(threaded by value; `jsSet` touches exactly the addressed field). -/
def validatedOptions (o : JSVal) : Except EngineErr JSVal := do
  let o1 ← jsSet o pagesKey (.num (.fin 1))
  jsSet o1 limitKey (.num .inf)

/-- The slot validation and budget check of `continueRequest`, on the four
entries of the descriptor array. -/
def continueRequestCore (env : Env) (fuel : Nat) (a0 a1 a2 a3 : JSVal) :
    Except EngineErr (ContResult × JSVal) :=
  if ¬ truthy a0 ∨ ¬ typeofIsString a0 then throw (.invalidDescriptor apiKeyMsg)
  else if ¬ truthy a1 ∨ ¬ typeofIsString a1 then throw (.invalidDescriptor tokenMsg)
  else if ¬ truthy a2 ∨ ¬ typeofIsObject a2 then throw (.invalidDescriptor contextMsg)
  else if ¬ truthy a3 ∨ ¬ typeofIsObject a3 then throw (.invalidDescriptor optionsMsg)
  else do
    let lim ← jsGet a3 limitKey
    if ¬ isNullV lim ∧ ¬ (toNumber lim).isNan ∧ (toNumber lim).isFiniteNum then
      throw .budgetMismatch
    else do
      let opts2 ← validatedOptions a3
      fetchNextPageM env fuel a0 a1 a2 opts2

/-- `continueRequest` from main.js: anything that is not an array of
length exactly 4 is rejected, then `args[0]` to `args[3]` are validated in
order, then the budget consistency check, then the re-entry into
`fetchNextPage` on the rewritten options. -/
def continueRequestM (env : Env) (fuel : Nat) (args : JSVal) :
    Except EngineErr (ContResult × JSVal) :=
  match args with
  | .arr [a0, a1, a2, a3] => continueRequestCore env fuel a0 a1 a2 a3
  | _ => throw (.invalidDescriptor contArrMsg)

/-! ## Small inversion and computation lemmas for the embedded code -/

theorem jsGet_obj (fs : List (String × JSVal)) (k : String) :
    jsGet (.obj fs) k = .ok ((lookupField fs k).getD .undefined) := rfl

theorem jsSet_obj (fs : List (String × JSVal)) (k : String) (v : JSVal) :
    jsSet (.obj fs) k v = .ok (.obj (setField fs k v)) := rfl

theorem except_bind_ok {α β : Type} {x : Except EngineErr α} {f : α → Except EngineErr β}
    {b : β} : (x >>= f) = Except.ok b ↔ ∃ a, x = .ok a ∧ f a = .ok b := by
  cases x with
  | error e => simp [Bind.bind, Except.bind]
  | ok a => simp [Bind.bind, Except.bind]

theorem ok_bind {α β : Type} (a : α) (f : α → Except EngineErr β) :
    (Except.ok a >>= f) = f a := rfl

theorem error_bind {α β : Type} (e : EngineErr) (f : α → Except EngineErr β) :
    (Except.error e >>= f) = Except.error e := rfl

/-! ## C8: the response decoder never throws and degrades to a null
document -/

/-- C8: for every abstract `JSON.parse`, every body string and every
options record, `parseBody` returns a record (it never throws); the
returned document is exactly the `jsonAfter` extraction, which is null
when the anchor is missing, when the scanner fails (for instance on a
truncated embedded document), and when `JSON.parse` fails. -/
theorem parseBody_never_throws (jsonParse : List Char → Option JSVal) (body : List Char)
    (fs : List (String × JSVal)) :
    ∃ r, parseBodyM jsonParse body (.obj fs) = .ok r
      ∧ r.json = jsonAfter jsonParse body anchorLit.data
      ∧ (strIndexOf body anchorLit.data = none → r.json = none)
      ∧ (∀ p, strIndexOf body anchorLit.data = some p →
          (∀ t, cutAfterJSON (body.drop (p + anchorLit.data.length)) ≠ .ok t) →
          r.json = none)
      ∧ (∀ p t, strIndexOf body anchorLit.data = some p →
          cutAfterJSON (body.drop (p + anchorLit.data.length)) = .ok t →
          jsonParse t = none → r.json = none) := by
  have hjson : ∀ r : Decoded, r.json = jsonAfter jsonParse body anchorLit.data →
      (strIndexOf body anchorLit.data = none → r.json = none)
      ∧ (∀ p, strIndexOf body anchorLit.data = some p →
          (∀ t, cutAfterJSON (body.drop (p + anchorLit.data.length)) ≠ .ok t) →
          r.json = none)
      ∧ (∀ p t, strIndexOf body anchorLit.data = some p →
          cutAfterJSON (body.drop (p + anchorLit.data.length)) = .ok t →
          jsonParse t = none → r.json = none) := by
    intro r hr
    refine ⟨?_, ?_, ?_⟩
    · intro hnone; rw [hr]; simp [jsonAfter, hnone]
    · intro p hp hcut
      rw [hr]
      cases hc : cutAfterJSON (body.drop (p + anchorLit.data.length)) with
      | ok t => exact absurd hc (hcut t)
      | unsupportedRoot => simp only [jsonAfter, hp, hc]
      | unterminated => simp only [jsonAfter, hp, hc]
    · intro p t hp hcut hparse
      rw [hr]; simp only [jsonAfter, hp, hcut, hparse]
  suffices h : ∃ r, parseBodyM jsonParse body (.obj fs) = .ok r
      ∧ r.json = jsonAfter jsonParse body anchorLit.data by
    obtain ⟨r, h1, h2⟩ := h
    obtain ⟨h3, h4, h5⟩ := hjson r h2
    exact ⟨r, h1, h2, h3, h4, h5⟩
  unfold parseBodyM
  simp only [jsGet, jsSet, bind, Except.bind, pure, Except.pure, DEFAULT_CONTEXT,
    lookupField, setField, Option.getD, clientKey, userKey, requestKey, clientVersionKey,
    utcKey, glKey, hlKey, clientNameKey, enableSafetyModeKey, safeSearchKey,
    String.reduceEq, reduceIte]
  split <;> split <;> split <;> split <;> exact ⟨_, rfl, rfl⟩

/-- C8 witness: on a concrete body with no anchor literal, a concrete
parse function and an empty options record, the decoder returns a record
with a null document. -/
theorem parseBody_never_throws_witness :
    ∃ r, parseBodyM (fun _ => none) ['a', 'b'] (.obj []) = .ok r ∧ r.json = none := by
  obtain ⟨r, h1, -, h3, -, -⟩ := parseBody_never_throws (fun _ => none) ['a', 'b'] []
  exact ⟨r, h1, h3 (by decide)⟩

/-! ## Concrete fixtures used by witnesses -/

/-- A trivial environment: the oracle answers `undefined`, the item mapper
is the identity, string coercion and URL resolution are constant. -/
def env0 : Env where
  fetch := fun _ => JSVal.undefined
  parseItemFirst := id
  parseItemNext := id
  toStr := fun _ => emptyStr
  urlRes := fun _ => emptyStr

/-- One raw item. -/
def item0 : JSVal := .obj [(textKey, .str emptyStr)]

/-- A sectioned first-page container with one item section holding one raw
item, no continuation marker, and a submenu with no groups. -/
def pc0 : JSVal := .obj [
  (sectionListKey, .obj [
    (contentsKey, .arr [.obj [(itemSectionKey, .obj [(contentsKey, .arr [item0])])]]),
    (subMenuKey, .obj [(searchSubMenuKey, .obj [])])])]

/-- A decoded document around `pc0`, with a popup chain whose dialog holds
no groups. -/
def json0 : JSVal := .obj [
  (contentsKey, .obj [(twoColKey, .obj [(primaryContentsKey, pc0)])]),
  (headerKey, .obj [(searchHeaderKey, .obj [(searchFilterButtonKey, .obj [(buttonRendererKey,
    .obj [(commandKey, .obj [(openPopupKey, .obj [(popupKey,
    .obj [(dialogKey, .obj [])])])])])])])])]

/-- Normalized options with a finite item limit of 3. -/
def opts0 : JSVal := .obj [(limitKey, .num (.fin 3))]

/-! ## C6: the filter catalog extractor on documents without filter
groups -/

/-- A decoded document whose wrapper has no submenu at all: both tree
positions yield no filter groups. -/
def jsonBad : JSVal := .obj [(contentsKey, .obj [(twoColKey, .obj [(primaryContentsKey,
  .obj [(sectionListKey, .obj [(contentsKey, .arr [])])])])])]

/-- C6 counterexample: on `jsonBad`, neither alternate tree position
yields filter groups, yet `parseFilters` raises a TypeError (reading
`searchSubMenuRenderer` of `undefined`) instead of returning an empty
catalog. -/
theorem parseFilters_counterexample :
    parseFiltersM (fun _ => emptyStr) (fun _ => emptyStr) jsonBad = .error .typeError := by
  rfl

/-- C6 (amended): the extractor returns an empty catalog (and no error)
when both positions resolve but yield no groups — the selected wrapper has
a submenu whose `searchSubMenuRenderer` exists with `groups` undefined,
and the popup chain fully resolves with falsy `groups`; a document where
an intermediate node of the consulted chains is missing raises a
TypeError instead (see the counterexample). -/
theorem parseFilters_empty_catalog
    (toStr : JSVal → String) (urlRes : JSVal → String)
    (json c t pc slr wrapper sm1 sm ssr h hd0 hd1 hd2 hd3 hd4 hd5 dlg gv : JSVal)
    (hc : jsGet json contentsKey = .ok c)
    (ht : jsGet c twoColKey = .ok t)
    (hpc : jsGet t primaryContentsKey = .ok pc)
    (hslr : jsGet pc sectionListKey = .ok slr)
    (hw : (if truthy slr then pure slr else jsGet pc richGridKey) = Except.ok wrapper)
    (hsm1 : jsGet wrapper subMenuKey = .ok sm1)
    (hsm : (if truthy sm1 then pure sm1 else jsGet wrapper submenuKey) = Except.ok sm)
    (hssr : jsGet sm searchSubMenuKey = .ok ssr)
    (hgu : jsGet ssr groupsKey = .ok .undefined)
    (hh : jsGet json headerKey = .ok h)
    (h1 : jsGet h searchHeaderKey = .ok hd0)
    (h2 : jsGet hd0 searchFilterButtonKey = .ok hd1)
    (h3 : jsGet hd1 buttonRendererKey = .ok hd2)
    (h4 : jsGet hd2 commandKey = .ok hd3)
    (h5 : jsGet hd3 openPopupKey = .ok hd4)
    (h6 : jsGet hd4 popupKey = .ok hd5)
    (h7 : jsGet hd5 dialogKey = .ok dlg)
    (h8 : jsGet dlg groupsKey = .ok gv)
    (h9 : truthy gv = false) :
    parseFiltersM toStr urlRes json = .ok [] := by
  unfold parseFiltersM
  simp only [hc, ok_bind, ht, hpc, hslr]
  by_cases hbs : truthy slr = true
  · rw [if_pos hbs] at hw ⊢
    rw [hw, ok_bind]
    simp only [hsm1, ok_bind]
    by_cases hbm : truthy sm1 = true
    · rw [if_pos hbm] at hsm ⊢
      rw [hsm, ok_bind]
      simp only [hssr, ok_bind, hgu, isUndefV, if_true, hh, h1, h2, h3, h4, h5, h6, h7, h8,
        h9, Bool.false_eq_true, if_false, pure, Except.pure, asArray, foldA]
    · rw [if_neg hbm] at hsm ⊢
      rw [hsm, ok_bind]
      simp only [hssr, ok_bind, hgu, isUndefV, if_true, hh, h1, h2, h3, h4, h5, h6, h7, h8,
        h9, Bool.false_eq_true, if_false, pure, Except.pure, asArray, foldA]
  · rw [if_neg hbs] at hw ⊢
    rw [hw, ok_bind]
    simp only [hsm1, ok_bind]
    by_cases hbm : truthy sm1 = true
    · rw [if_pos hbm] at hsm ⊢
      rw [hsm, ok_bind]
      simp only [hssr, ok_bind, hgu, isUndefV, if_true, hh, h1, h2, h3, h4, h5, h6, h7, h8,
        h9, Bool.false_eq_true, if_false, pure, Except.pure, asArray, foldA]
    · rw [if_neg hbm] at hsm ⊢
      rw [hsm, ok_bind]
      simp only [hssr, ok_bind, hgu, isUndefV, if_true, hh, h1, h2, h3, h4, h5, h6, h7, h8,
        h9, Bool.false_eq_true, if_false, pure, Except.pure, asArray, foldA]

/-- C6 witness: a concrete document where the submenu exists with no
groups and the popup dialog exists with no groups produces the empty
catalog. -/
theorem parseFilters_empty_catalog_witness :
    parseFiltersM (fun _ => emptyStr) (fun _ => emptyStr) json0 = .ok [] :=
  parseFilters_empty_catalog (fun _ => emptyStr) (fun _ => emptyStr) json0
    _ _ _ _ _ _ _ _ _ _ _ _ _ _ _ _ _
    rfl rfl rfl rfl rfl rfl rfl rfl rfl rfl rfl rfl rfl rfl rfl rfl rfl rfl rfl

/-! ## C7: the grid branch of the first-page adapter -/

/-- Whether a grid entry is a continuation marker
(`hasOwnProperty('continuationItemRenderer')` for object entries). -/
def hasMarkerB (x : JSVal) : Bool :=
  match x with
  | .obj fs => fs.any fun f => f.1 = continuationItemKey
  | _ => false

def isObjB : JSVal → Bool
  | .obj _ => true
  | _ => false

/-- The value `(x.richItemRenderer || x.richSectionRenderer).content` when
it is readable. -/
def gridItemVal (x : JSVal) : JSVal := (gridItemBase x).toOption.getD .undefined

theorem hasOwnProp_eq_of_obj (x : JSVal) (hx : isObjB x = true) (k : String) :
    hasOwnProp x k = .ok (match x with | .obj fs => fs.any fun f => f.1 = k | _ => false) := by
  cases x <;> simp [isObjB] at hx ⊢ <;> rfl

theorem filterA_ok (p : JSVal → Except EngineErr Bool) (q : JSVal → Bool) :
    ∀ l : List JSVal, (∀ x ∈ l, p x = .ok (q x)) → filterA p l = .ok (l.filter q) := by
  intro l
  induction l with
  | nil => intro _; rfl
  | cons x xs ih =>
    intro h
    rw [filterA, h x (by simp), ok_bind, ih (fun y hy => h y (by simp [hy])), ok_bind]
    cases hq : q x <;> simp [List.filter_cons, hq, pure, Except.pure]

theorem mapA_ok (f : JSVal → Except EngineErr JSVal) (g : JSVal → JSVal) :
    ∀ l : List JSVal, (∀ x ∈ l, f x = .ok (g x)) → mapA f l = .ok (l.map g) := by
  intro l
  induction l with
  | nil => intro _; rfl
  | cons x xs ih =>
    intro h
    rw [mapA, h x (by simp), ok_bind, ih (fun y hy => h y (by simp [hy])), ok_bind]
    rfl

theorem findA_ok (p : JSVal → Except EngineErr Bool) (q : JSVal → Bool) :
    ∀ l : List JSVal, (∀ x ∈ l, p x = .ok (q x)) →
      findA p l = .ok ((l.find? q).getD .undefined) := by
  intro l
  induction l with
  | nil => intro _; rfl
  | cons x xs ih =>
    intro h
    rw [findA, h x (by simp), ok_bind]
    cases hq : q x with
    | true => simp [List.find?_cons, hq, pure, Except.pure]
    | false => rw [ih (fun y hy => h y (by simp [hy]))]; simp [List.find?_cons, hq]

theorem length_filter_not_countP (q : JSVal → Bool) :
    ∀ l : List JSVal, (l.filter fun x => !q x).length = l.length - l.countP q := by
  intro l
  induction l with
  | nil => rfl
  | cons x xs ih =>
    have hle : xs.countP q ≤ xs.length := List.countP_le_length q
    cases hq : q x <;>
      simp [List.filter_cons, List.countP_cons, hq, ih] <;>
      omega

/-- C7: a grid-shaped first-page container with `N` entries, `M ≤ 1` of
which are continuation markers and the rest directly items, adapts to
exactly `N - M` raw items, and its continuation slot is truthy (the found
marker) exactly when `M = 1`. -/
theorem parseWrapper_grid (entries : List JSVal)
    (hobj : ∀ x ∈ entries, isObjB x = true)
    (hM : entries.countP hasMarkerB ≤ 1)
    (hitem : ∀ x ∈ entries, hasMarkerB x = false → ∃ v, gridItemBase x = .ok v) :
    ∃ items cont,
      parseWrapperM (.obj [(richGridKey, .obj [(contentsKey, .arr entries)])])
        = .ok { rawItems := .arr items, continuation := cont }
      ∧ items.length = entries.length - entries.countP hasMarkerB
      ∧ (truthy cont = true ↔ entries.countP hasMarkerB = 1) := by
  have hmark : ∀ x ∈ entries, hasOwnProp x continuationItemKey = .ok (hasMarkerB x) := by
    intro x hx
    rw [hasOwnProp_eq_of_obj x (hobj x hx)]
    cases x <;> simp [hasMarkerB]
  refine ⟨(entries.filter fun x => !hasMarkerB x).map gridItemVal,
    (entries.find? hasMarkerB).getD .undefined, ?_, ?_, ?_⟩
  · unfold parseWrapperM
    rw [show jsGet (JSVal.obj [(richGridKey, JSVal.obj [(contentsKey, JSVal.arr entries)])])
        sectionListKey = .ok .undefined by rfl, ok_bind]
    rw [show truthy JSVal.undefined = false by rfl]
    simp only [Bool.false_eq_true, if_false]
    rw [show jsGet (JSVal.obj [(richGridKey, JSVal.obj [(contentsKey, JSVal.arr entries)])])
        richGridKey = .ok (JSVal.obj [(contentsKey, JSVal.arr entries)]) by rfl, ok_bind]
    rw [show truthy (JSVal.obj [(contentsKey, JSVal.arr entries)]) = true by rfl]
    simp only [if_true]
    rw [show jsGet (JSVal.obj [(contentsKey, JSVal.arr entries)]) contentsKey
        = .ok (JSVal.arr entries) by rfl, ok_bind]
    rw [show asArray (JSVal.arr entries) = .ok entries by rfl, ok_bind]
    rw [filterA_ok _ (fun x => !hasMarkerB x) entries
      (fun x hx => by rw [hmark x hx]; rfl), ok_bind]
    rw [mapA_ok gridItemBase gridItemVal _ ?hmap, ok_bind]
    case hmap =>
      intro x hx
      rw [List.mem_filter] at hx
      obtain ⟨v, hv⟩ := hitem x hx.1 (by simpa using hx.2)
      rw [hv]; simp [gridItemVal, hv, Except.toOption]
    rw [findA_ok _ hasMarkerB entries hmark, ok_bind]
    rfl
  · rw [List.length_map]
    exact length_filter_not_countP hasMarkerB entries
  · constructor
    · intro htr
      by_contra hne
      have hzero : entries.countP hasMarkerB = 0 := by omega
      have hnone : entries.find? hasMarkerB = none := by
        rw [List.find?_eq_none]
        intro x hx hpx
        have := List.countP_eq_zero.mp hzero x hx
        simp [hpx] at this
      rw [hnone] at htr
      simp [truthy] at htr
    · intro hone
      have hpos : 0 < entries.countP hasMarkerB := by omega
      obtain ⟨a, ha, hpa⟩ := List.countP_pos.mp hpos
      have hsome : ∃ b, entries.find? hasMarkerB = some b := by
        cases hf : entries.find? hasMarkerB with
        | none => exact absurd hpa (by simpa [hf] using (List.find?_eq_none.mp hf) a ha)
        | some b => exact ⟨b, rfl⟩
      obtain ⟨b, hb⟩ := hsome
      have hpb : hasMarkerB b = true := List.find?_some hb
      have hbobj : ∃ fs, b = .obj fs := by
        cases b <;> simp [hasMarkerB] at hpb <;> exact ⟨_, rfl⟩
      obtain ⟨fs, rfl⟩ := hbobj
      rw [hb]
      rfl

/-- C7 witness: a concrete grid with one direct item and one continuation
marker adapts to one raw item and a truthy continuation. -/
theorem parseWrapper_grid_witness :
    ∃ items cont,
      parseWrapperM (.obj [(richGridKey, .obj [(contentsKey, .arr
          [.obj [(richItemKey, .obj [(contentKey, .num (.fin 1))])],
           .obj [(continuationItemKey, .undefined)]])])])
        = .ok { rawItems := .arr items, continuation := cont }
      ∧ items.length
          = ([.obj [(richItemKey, .obj [(contentKey, .num (.fin 1))])],
              .obj [(continuationItemKey, .undefined)]] : List JSVal).length
            - ([.obj [(richItemKey, .obj [(contentKey, .num (.fin 1))])],
               .obj [(continuationItemKey, .undefined)]] : List JSVal).countP hasMarkerB
      ∧ (truthy cont = true ↔
          ([.obj [(richItemKey, .obj [(contentKey, .num (.fin 1))])],
            .obj [(continuationItemKey, .undefined)]] : List JSVal).countP hasMarkerB = 1) := by
  apply parseWrapper_grid
  · decide
  · decide
  · intro x hx hm
    simp only [List.mem_cons, List.not_mem_nil, or_false] at hx
    rcases hx with rfl | rfl
    · exact ⟨.num (.fin 1), rfl⟩
    · exact absurd hm (by decide)

/-! ## C5: malformed continuation-fetch envelopes -/

/-- C5 (amended): when the command-envelope property of the continuation
response is readable and is not an array, `fetchNextPage` resolves with no
items, a null continuation and untouched options, raising no error; an
envelope that IS an array but lacks the append-continuation-items
structure raises a TypeError instead (see the counterexample). -/
theorem fetchNextPage_empty_envelope (env : Env) (n : Nat)
    (apiKey token context options v : JSVal)
    (hget : jsGet (env.fetch n) orcKey = .ok v)
    (hnarr : ∀ xs, v ≠ .arr xs) :
    fetchNextPageM env (n + 1) apiKey token context options
      = .ok ({ items := [], continuation := .nul }, options) := by
  rw [fetchNextPageM, hget, ok_bind]
  cases v with
  | arr xs => exact absurd rfl (hnarr xs)
  | undefined => rfl
  | nul => rfl
  | bool b => rfl
  | num m => rfl
  | str s => rfl
  | obj fs => rfl

/-- A network oracle answering with an envelope that is an empty array. -/
def envC5 : Env where
  fetch := fun _ => JSVal.obj [(orcKey, .arr [])]
  parseItemFirst := id
  parseItemNext := id
  toStr := fun _ => emptyStr
  urlRes := fun _ => emptyStr

/-- C5 counterexample: a response whose command envelope is present and an
array, but lacks the inner append-continuation-items structure (it is
empty), makes `fetchNextPage` raise a TypeError instead of returning the
empty result the claim promises for every malformed envelope. -/
theorem fetchNextPage_envelope_counterexample :
    fetchNextPageM envC5 1 .undefined .undefined .undefined (.obj []) = .error .typeError := by
  rfl

/-- A network oracle answering with a response without the envelope key. -/
def envC5b : Env where
  fetch := fun _ => JSVal.obj []
  parseItemFirst := id
  parseItemNext := id
  toStr := fun _ => emptyStr
  urlRes := fun _ => emptyStr

/-- C5 witness: with a concrete response lacking the envelope property,
the continuation fetch returns no items and a null continuation. -/
theorem fetchNextPage_empty_envelope_witness :
    fetchNextPageM envC5b 1 .undefined .undefined .undefined (.obj [])
      = .ok ({ items := [], continuation := .nul }, .obj []) :=
  fetchNextPage_empty_envelope envC5b 0 .undefined .undefined .undefined (.obj []) .undefined rfl
    (fun xs h => JSVal.noConfusion h)

/-! ## Error classification: the engine only raises TypeErrors (or runs
out of fuel) past validation -/

theorem except_bind_error {α β : Type} {x : Except EngineErr α} {f : α → Except EngineErr β}
    {e : EngineErr} : (x >>= f) = .error e ↔ x = .error e ∨ ∃ a, x = .ok a ∧ f a = .error e := by
  cases x with
  | error e2 => simp [Bind.bind, Except.bind]
  | ok a => simp [Bind.bind, Except.bind]

theorem jsGet_error {v : JSVal} {k : String} {e : EngineErr} (h : jsGet v k = .error e) :
    e = .typeError := by
  cases v <;> simp [jsGet] at h <;> exact h.symm

theorem jsSet_error {v : JSVal} {k : String} {w : JSVal} {e : EngineErr}
    (h : jsSet v k w = .error e) : e = .typeError := by
  cases v <;> simp [jsSet] at h <;> exact h.symm

theorem jsIterate_error {v : JSVal} {e : EngineErr} (h : jsIterate v = .error e) :
    e = .typeError := by
  cases v <;> simp [jsIterate] at h <;> exact h.symm

theorem asArray_error {v : JSVal} {e : EngineErr} (h : asArray v = .error e) :
    e = .typeError := by
  cases v <;> simp [asArray] at h <;> exact h.symm

theorem hasOwnProp_error {v : JSVal} {k : String} {e : EngineErr}
    (h : hasOwnProp v k = .error e) : e = .typeError := by
  cases v <;> simp [hasOwnProp] at h <;> exact h.symm

theorem tokenOf_error {cont : JSVal} {e : EngineErr} (h : tokenOf cont = .error e) :
    e = .typeError := by
  unfold tokenOf at h
  split at h
  · rcases except_bind_error.mp h with h1 | ⟨a, -, h1⟩
    · exact jsGet_error h1
    rcases except_bind_error.mp h1 with h2 | ⟨b, -, h2⟩
    · exact jsGet_error h2
    rcases except_bind_error.mp h2 with h3 | ⟨c, -, h3⟩
    · exact jsGet_error h3
    exact jsGet_error h3
  · cases h

theorem parsePage2Aux_error :
    ∀ (l acc : List JSVal) (cont : JSVal) (e : EngineErr),
      parsePage2Aux l acc cont = .error e → e = .typeError := by
  intro l
  induction l with
  | nil => intro acc cont e h; cases h
  | cons ci rest ih =>
    intro acc cont e h
    rw [parsePage2Aux] at h
    rcases except_bind_error.mp h with h1 | ⟨b1, -, h1⟩
    · exact hasOwnProp_error h1
    split at h1
    · rcases except_bind_error.mp h1 with h2 | ⟨isr, -, h2⟩
      · exact jsGet_error h2
      rcases except_bind_error.mp h2 with h3 | ⟨c, -, h3⟩
      · exact jsGet_error h3
      rcases except_bind_error.mp h3 with h4 | ⟨xs, -, h4⟩
      · exact jsIterate_error h4
      exact ih _ _ _ h4
    rcases except_bind_error.mp h1 with h2 | ⟨b2, -, h2⟩
    · exact hasOwnProp_error h2
    split at h2
    · rcases except_bind_error.mp h2 with h3 | ⟨r, -, h3⟩
      · exact jsGet_error h3
      rcases except_bind_error.mp h3 with h4 | ⟨x, -, h4⟩
      · exact jsGet_error h4
      exact ih _ _ _ h4
    rcases except_bind_error.mp h2 with h3 | ⟨b3, -, h3⟩
    · exact hasOwnProp_error h3
    split at h3
    · rcases except_bind_error.mp h3 with h4 | ⟨r, -, h4⟩
      · exact jsGet_error h4
      rcases except_bind_error.mp h4 with h5 | ⟨x, -, h5⟩
      · exact jsGet_error h5
      exact ih _ _ _ h5
    rcases except_bind_error.mp h3 with h4 | ⟨b4, -, h4⟩
    · exact hasOwnProp_error h4
    split at h4
    · exact ih _ _ _ h4
    · exact ih _ _ _ h4

theorem parsePage2WrapperM_error {l : List JSVal} {e : EngineErr}
    (h : parsePage2WrapperM l = .error e) : e = .typeError :=
  parsePage2Aux_error l [] .nul e h

/-- Past its argument validation, the engine can only fail with a runtime
TypeError or by exhausting the recursion fuel: `fetchNextPage` never
raises a validation error. -/
theorem fetchNextPage_error_class (env : Env) :
    ∀ (fuel : Nat) (a t c o : JSVal) (e : EngineErr),
      fetchNextPageM env fuel a t c o = .error e → e = .typeError ∨ e = .outOfFuel := by
  intro fuel
  induction fuel with
  | zero =>
    intro a t c o e h
    rw [fetchNextPageM] at h
    injection h with h2
    exact Or.inr h2.symm
  | succ n ih =>
    intro a t c o e h
    rw [fetchNextPageM] at h
    rcases except_bind_error.mp h with h1 | ⟨orc, -, h1⟩
    · exact Or.inl (jsGet_error h1)
    match orc with
    | .undefined | .nul | .bool _ | .num _ | .str _ | .obj _ => cases h1
    | .arr cmds =>
    rcases except_bind_error.mp h1 with h2 | ⟨app, -, h2⟩
    · exact Or.inl (jsGet_error h2)
    rcases except_bind_error.mp h2 with h3 | ⟨civ, -, h3⟩
    · exact Or.inl (jsGet_error h3)
    rcases except_bind_error.mp h3 with h4 | ⟨cil, -, h4⟩
    · exact Or.inl (jsIterate_error h4)
    rcases except_bind_error.mp h4 with h5 | ⟨batch, -, h5⟩
    · exact Or.inl (parsePage2WrapperM_error h5)
    rcases except_bind_error.mp h5 with h6 | ⟨lim, -, h6⟩
    · exact Or.inl (jsGet_error h6)
    rcases except_bind_error.mp h6 with h7 | ⟨o1, -, h7⟩
    · exact Or.inl (jsSet_error h7)
    rcases except_bind_error.mp h7 with h8 | ⟨pg, -, h8⟩
    · exact Or.inl (jsGet_error h8)
    rcases except_bind_error.mp h8 with h9 | ⟨o2, -, h9⟩
    · exact Or.inl (jsSet_error h9)
    rcases except_bind_error.mp h9 with h10 | ⟨nt, -, h10⟩
    · exact Or.inl (tokenOf_error h10)
    rcases except_bind_error.mp h10 with h11 | ⟨lim2, -, h11⟩
    · exact Or.inl (jsGet_error h11)
    rcases except_bind_error.mp h11 with h12 | ⟨pg2, -, h12⟩
    · exact Or.inl (jsGet_error h12)
    split at h12
    · cases h12
    · rcases except_bind_error.mp h12 with h13 | ⟨p, -, h13⟩
      · exact ih _ _ _ _ _ h13
      · rcases p with ⟨res, optsF⟩; cases h13

/-! ## C4: the validation of continueRequest -/

/-- The shape check continueRequest performs: a 4-element array with a
truthy string credential, a truthy string token, a truthy object context,
and a truthy object options. -/
def descriptorShapeOk : JSVal → Bool
  | .arr [a0, a1, a2, a3] =>
    truthy a0 && typeofIsString a0 && truthy a1 && typeofIsString a1 &&
    truthy a2 && typeofIsObject a2 && truthy a3 && typeofIsObject a3
  | _ => false

/-- The `limit` slot of the validated options value. -/
def limitFieldOf : JSVal → JSVal
  | .obj fs => (lookupField fs limitKey).getD .undefined
  | _ => .undefined

/-- The budget check of continueRequest:
`limit !== null && !isNaN(limit) && isFinite(limit)`. -/
def budgetFiniteB (a3 : JSVal) : Bool :=
  !(isNullV (limitFieldOf a3)) &&
    (!(toNumber (limitFieldOf a3)).isNan && (toNumber (limitFieldOf a3)).isFiniteNum)

theorem budgetFiniteB_iff (a3 : JSVal) :
    budgetFiniteB a3 = true ↔
      (¬ isNullV (limitFieldOf a3) = true ∧ ¬ (toNumber (limitFieldOf a3)).isNan = true
        ∧ (toNumber (limitFieldOf a3)).isFiniteNum = true) := by
  simp [budgetFiniteB, Bool.and_eq_true, Bool.not_eq_true']

theorem jsGet_limit_of_objType {a3 : JSVal} (ht : truthy a3 = true)
    (hobj : typeofIsObject a3 = true) : jsGet a3 limitKey = .ok (limitFieldOf a3) := by
  cases a3 <;> simp [truthy, typeofIsObject] at ht hobj <;> rfl

theorem validatedOptions_ok {a3 : JSVal} (ht : truthy a3 = true)
    (hobj : typeofIsObject a3 = true) : ∃ o2, validatedOptions a3 = .ok o2 := by
  cases a3 <;> simp [truthy, typeofIsObject] at ht hobj
  · exact ⟨_, rfl⟩
  · exact ⟨_, rfl⟩

theorem continueRequest_wellshaped (env : Env) (fuel : Nat) (a0 a1 a2 a3 : JSVal)
    (hshape : descriptorShapeOk (.arr [a0, a1, a2, a3]) = true) :
    (budgetFiniteB a3 = true →
      continueRequestM env fuel (.arr [a0, a1, a2, a3]) = .error .budgetMismatch)
    ∧ (budgetFiniteB a3 = false → ∃ opts2, validatedOptions a3 = .ok opts2 ∧
        continueRequestM env fuel (.arr [a0, a1, a2, a3])
          = fetchNextPageM env fuel a0 a1 a2 opts2) := by
  simp only [descriptorShapeOk, Bool.and_eq_true] at hshape
  obtain ⟨⟨⟨⟨⟨⟨⟨h0t, h0s⟩, h1t⟩, h1s⟩, h2t⟩, h2o⟩, h3t⟩, h3o⟩ := hshape
  have hc0 : ¬(¬ truthy a0 = true ∨ ¬ typeofIsString a0 = true) :=
    fun hc => hc.elim (fun h => h h0t) (fun h => h h0s)
  have hc1 : ¬(¬ truthy a1 = true ∨ ¬ typeofIsString a1 = true) :=
    fun hc => hc.elim (fun h => h h1t) (fun h => h h1s)
  have hc2 : ¬(¬ truthy a2 = true ∨ ¬ typeofIsObject a2 = true) :=
    fun hc => hc.elim (fun h => h h2t) (fun h => h h2o)
  have hc3 : ¬(¬ truthy a3 = true ∨ ¬ typeofIsObject a3 = true) :=
    fun hc => hc.elim (fun h => h h3t) (fun h => h h3o)
  constructor
  · intro hb
    show continueRequestCore env fuel a0 a1 a2 a3 = _
    unfold continueRequestCore
    rw [if_neg hc0, if_neg hc1, if_neg hc2, if_neg hc3,
      jsGet_limit_of_objType h3t h3o, ok_bind,
      if_pos ((budgetFiniteB_iff a3).mp hb)]
    rfl
  · intro hb
    obtain ⟨o2, ho2⟩ := validatedOptions_ok h3t h3o
    refine ⟨o2, ho2, ?_⟩
    show continueRequestCore env fuel a0 a1 a2 a3 = _
    unfold continueRequestCore
    rw [if_neg hc0, if_neg hc1, if_neg hc2, if_neg hc3,
      jsGet_limit_of_objType h3t h3o, ok_bind,
      if_neg (fun hc => by rw [(budgetFiniteB_iff a3).mpr hc] at hb; cases hb),
      ho2, ok_bind]

/-- C4 (amended): `continueRequest` fails with one of the
invalid-descriptor errors exactly on arguments failing the code's shape
check (which also rejects empty-string credentials and tokens and falsy
contexts and options, unlike the claim's presence-and-type reading); on a
well-shaped descriptor it fails with the budget-mismatch error when the
options' `limit` coerces to a finite non-null number; otherwise it
re-enters `fetchNextPage` on the rewritten options, which never raises a
validation error (only runtime TypeErrors or fuel exhaustion). -/
theorem continueRequest_validation (env : Env) (fuel : Nat) (args : JSVal) :
    (descriptorShapeOk args = false →
      ∃ m, continueRequestM env fuel args = .error (.invalidDescriptor m))
    ∧ (∀ a0 a1 a2 a3, args = .arr [a0, a1, a2, a3] → descriptorShapeOk args = true →
        (budgetFiniteB a3 = true → continueRequestM env fuel args = .error .budgetMismatch)
        ∧ (budgetFiniteB a3 = false → ∃ opts2, validatedOptions a3 = .ok opts2 ∧
            continueRequestM env fuel args = fetchNextPageM env fuel a0 a1 a2 opts2))
    ∧ (∀ a0 a1 a2 a3 e, args = .arr [a0, a1, a2, a3] → descriptorShapeOk args = true →
        budgetFiniteB a3 = false → continueRequestM env fuel args = .error e →
        e = .typeError ∨ e = .outOfFuel) := by
  have hmain : ∀ a0 a1 a2 a3, args = .arr [a0, a1, a2, a3] → descriptorShapeOk args = true →
      (budgetFiniteB a3 = true → continueRequestM env fuel args = .error .budgetMismatch)
      ∧ (budgetFiniteB a3 = false → ∃ opts2, validatedOptions a3 = .ok opts2 ∧
          continueRequestM env fuel args = fetchNextPageM env fuel a0 a1 a2 opts2) := by
    intro a0 a1 a2 a3 hargs hshape
    subst hargs
    exact continueRequest_wellshaped env fuel a0 a1 a2 a3 hshape
  refine ⟨?_, hmain, ?_⟩
  · intro hshape
    match args, hshape with
    | .undefined, _ => exact ⟨contArrMsg, rfl⟩
    | .nul, _ => exact ⟨contArrMsg, rfl⟩
    | .bool b, _ => exact ⟨contArrMsg, rfl⟩
    | .num m, _ => exact ⟨contArrMsg, rfl⟩
    | .str s, _ => exact ⟨contArrMsg, rfl⟩
    | .obj fs, _ => exact ⟨contArrMsg, rfl⟩
    | .arr [], _ => exact ⟨contArrMsg, rfl⟩
    | .arr [a0], _ => exact ⟨contArrMsg, rfl⟩
    | .arr [a0, a1], _ => exact ⟨contArrMsg, rfl⟩
    | .arr [a0, a1, a2], _ => exact ⟨contArrMsg, rfl⟩
    | .arr (a0 :: a1 :: a2 :: a3 :: a4 :: rest), _ => exact ⟨contArrMsg, rfl⟩
    | .arr [a0, a1, a2, a3], hshape =>
      simp only [descriptorShapeOk, Bool.and_eq_true] at hshape
      show ∃ m, continueRequestCore env fuel a0 a1 a2 a3 = .error (.invalidDescriptor m)
      unfold continueRequestCore
      by_cases c0 : ¬ truthy a0 = true ∨ ¬ typeofIsString a0 = true
      · exact ⟨apiKeyMsg, by rw [if_pos c0]; rfl⟩
      rw [if_neg c0]
      by_cases c1 : ¬ truthy a1 = true ∨ ¬ typeofIsString a1 = true
      · exact ⟨tokenMsg, by rw [if_pos c1]; rfl⟩
      rw [if_neg c1]
      by_cases c2 : ¬ truthy a2 = true ∨ ¬ typeofIsObject a2 = true
      · exact ⟨contextMsg, by rw [if_pos c2]; rfl⟩
      rw [if_neg c2]
      by_cases c3 : ¬ truthy a3 = true ∨ ¬ typeofIsObject a3 = true
      · exact ⟨optionsMsg, by rw [if_pos c3]; rfl⟩
      exfalso
      have h0 : truthy a0 = true ∧ typeofIsString a0 = true := by tauto
      have h1 : truthy a1 = true ∧ typeofIsString a1 = true := by tauto
      have h2 : truthy a2 = true ∧ typeofIsObject a2 = true := by tauto
      have h3 : truthy a3 = true ∧ typeofIsObject a3 = true := by tauto
      rw [h0.1, h0.2, h1.1, h1.2, h2.1, h2.2, h3.1, h3.2] at hshape
      simp at hshape
  · intro a0 a1 a2 a3 e hargs hshape hb herr
    obtain ⟨o2, -, heq⟩ := ((hmain a0 a1 a2 a3 hargs hshape).2 hb)
    rw [heq] at herr
    exact fetchNextPage_error_class env fuel a0 a1 a2 o2 e herr

def tokStr : String := "tok"

/-- C4 counterexample: a 4-element descriptor whose credential is the
empty string — present and of string type, with a non-finite (absent)
budget — is nevertheless rejected with the invalid-apiKey error, because
the code tests truthiness; so the claim's characterization of the failure
set (absent or not a string) is wrong and the claim's no-error case does
not hold. -/
theorem continueRequest_counterexample :
    continueRequestM env0 1 (.arr [.str emptyStr, .str tokStr, .obj [], .obj []])
      = .error (.invalidDescriptor apiKeyMsg)
    ∧ typeofIsString (.str emptyStr) = true
    ∧ budgetFiniteB (.obj []) = false := ⟨rfl, rfl, rfl⟩

/-- C4 witness: the characterization applied to a concrete non-array
argument yields an invalid-descriptor failure. -/
theorem continueRequest_validation_witness :
    ∃ m, continueRequestM env0 1 .undefined = .error (.invalidDescriptor m) :=
  (continueRequest_validation env0 1 .undefined).1 rfl

/-! ## C10: the in-place rewrite of the descriptor options -/

theorem lookupField_setField_same (fs : List (String × JSVal)) (k : String) (v : JSVal) :
    lookupField (setField fs k v) k = some v := by
  induction fs with
  | nil => simp [setField, lookupField]
  | cons f rest ih =>
    rcases f with ⟨k0, v0⟩
    by_cases h : k0 = k
    · simp [setField, h, lookupField]
    · simp [setField, h, lookupField, ih]

theorem lookupField_setField_other (fs : List (String × JSVal)) (k k2 : String) (v : JSVal)
    (hne : k ≠ k2) : lookupField (setField fs k v) k2 = lookupField fs k2 := by
  induction fs with
  | nil => simp [setField, lookupField, hne]
  | cons f rest ih =>
    rcases f with ⟨k0, v0⟩
    by_cases h : k0 = k
    · subst h; simp [setField, lookupField, hne]
    · simp [setField, h, lookupField, ih]

/-- C10: resuming with a well-shaped descriptor whose options slot is an
object rewrites, in the caller-supplied options record and before any
fetching, exactly the two budget fields — the page budget to 1 and the
item budget to Infinity — leaving every other field unchanged, and then
proceeds as `fetchNextPage` on exactly that rewritten record. -/
theorem continueRequest_mutation (env : Env) (fuel : Nat) (a0 a1 a2 : JSVal)
    (fs : List (String × JSVal))
    (h0t : truthy a0 = true) (h0s : typeofIsString a0 = true)
    (h1t : truthy a1 = true) (h1s : typeofIsString a1 = true)
    (h2t : truthy a2 = true) (h2o : typeofIsObject a2 = true)
    (hb : budgetFiniteB (.obj fs) = false) :
    ∃ opts2, validatedOptions (.obj fs) = .ok opts2
      ∧ continueRequestM env fuel (.arr [a0, a1, a2, .obj fs])
          = fetchNextPageM env fuel a0 a1 a2 opts2
      ∧ jsGet opts2 pagesKey = .ok (.num (.fin 1))
      ∧ jsGet opts2 limitKey = .ok (.num .inf)
      ∧ (∀ k, k ≠ pagesKey → k ≠ limitKey → jsGet opts2 k = jsGet (.obj fs) k) := by
  have hshape : descriptorShapeOk (.arr [a0, a1, a2, .obj fs]) = true := by
    show (truthy a0 && typeofIsString a0 && truthy a1 && typeofIsString a1 &&
      truthy a2 && typeofIsObject a2 && truthy (.obj fs) && typeofIsObject (.obj fs)) = true
    rw [h0t, h0s, h1t, h1s, h2t, h2o]
    rfl
  obtain ⟨opts2, ho2, heq⟩ :=
    (continueRequest_wellshaped env fuel a0 a1 a2 (.obj fs) hshape).2 hb
  have ho2c : opts2 = .obj (setField (setField fs pagesKey (.num (.fin 1))) limitKey (.num .inf)) := by
    have h := ho2
    rw [show validatedOptions (.obj fs)
        = .ok (.obj (setField (setField fs pagesKey (.num (.fin 1))) limitKey (.num .inf)))
      from rfl] at h
    exact ((Except.ok.injEq _ _).mp h).symm
  subst ho2c
  refine ⟨_, ho2, heq, ?_, ?_, ?_⟩
  · rw [jsGet_obj, lookupField_setField_other _ _ _ _ (by decide),
      lookupField_setField_same]
    rfl
  · rw [jsGet_obj, lookupField_setField_same]
    rfl
  · intro k hkp hkl
    rw [jsGet_obj, jsGet_obj,
      lookupField_setField_other _ _ _ _ (fun h => hkl h.symm),
      lookupField_setField_other _ _ _ _ (fun h => hkp h.symm)]

/-- C10 witness: a concrete resume on an options record with one extra
field rewrites the two budget fields and keeps the extra field. -/
theorem continueRequest_mutation_witness :
    ∃ opts2, validatedOptions (.obj [(searchKey, .str tokStr)]) = .ok opts2
      ∧ continueRequestM env0 1 (.arr [.str tokStr, .str tokStr, .obj [],
          .obj [(searchKey, .str tokStr)]])
          = fetchNextPageM env0 1 (.str tokStr) (.str tokStr) (.obj [])
              (.obj (setField (setField [(searchKey, .str tokStr)] pagesKey (.num (.fin 1)))
                limitKey (.num .inf)))
      ∧ jsGet (.obj (setField (setField [(searchKey, .str tokStr)] pagesKey (.num (.fin 1)))
          limitKey (.num .inf))) searchKey = .ok (.str tokStr) := by
  obtain ⟨opts2, h1, h2, h3, h4, h5⟩ :=
    continueRequest_mutation env0 1 (.str tokStr) (.str tokStr) (.obj [])
      [(searchKey, .str tokStr)] rfl rfl rfl rfl rfl rfl rfl
  have ho2c : opts2 = .obj (setField (setField [(searchKey, .str tokStr)] pagesKey
      (.num (.fin 1))) limitKey (.num .inf)) := by
    have h := h1
    rw [show validatedOptions (.obj [(searchKey, .str tokStr)])
        = .ok (.obj (setField (setField [(searchKey, .str tokStr)] pagesKey (.num (.fin 1)))
            limitKey (.num .inf)))
      from rfl] at h
    exact ((Except.ok.injEq _ _).mp h).symm
  subst ho2c
  exact ⟨_, h1, h2, by rw [h5 searchKey (by decide) (by decide)]; rfl⟩

/-! ## C3: a finite item limit bounds the total and suppresses the
continuation descriptor -/

theorem jsGet_ok_num {v : JSVal} {k : String} {m : JNum}
    (h : jsGet v k = .ok (.num m)) : ∃ fs, v = .obj fs := by
  cases v <;> simp [jsGet] at h <;> exact ⟨_, rfl⟩

theorem limitFilter_length_le (L : ℚ) (xs : List JSVal) : ∀ (i : Nat),
    (limitFilter (.num (.fin L)) xs i).length ≤ ⌈L⌉₊ - i := by
  induction xs with
  | nil => intro i; simp [limitFilter]
  | cons x xs ih =>
    intro i
    rw [limitFilter]
    split
    case isTrue h =>
      have hi : (i : ℚ) < L := by
        have h2 : decide (qOfNat i < L) = true := h
        have h3 := of_decide_eq_true h2
        rwa [qOfNat_eq] at h3
      have hic : i < ⌈L⌉₊ := Nat.lt_ceil.mpr hi
      have hr := ih (i + 1)
      simp only [List.length_cons]
      omega
    case isFalse h =>
      have hr := ih (i + 1)
      omega

theorem ceil_sub_bound (L : ℚ) (n : ℕ) (h : n ≤ ⌈L⌉₊) :
    n + ⌈L - (n : ℚ)⌉₊ ≤ ⌈L⌉₊ := by
  have h1 : ⌈L - (n : ℚ)⌉₊ ≤ ⌈L⌉₊ - n := by
    rw [Nat.ceil_le, Nat.cast_sub h]
    exact sub_le_sub_right (Nat.le_ceil L) _
  omega

theorem fetchNextPage_finite_limit (env : Env) : ∀ (fuel : Nat) (a t c o : JSVal) (L : ℚ)
    (res : ContResult) (oF : JSVal),
    jsGet o limitKey = .ok (.num (.fin L)) →
    fetchNextPageM env fuel a t c o = .ok (res, oF) →
    res.items.length ≤ ⌈L⌉₊ ∧ res.continuation = .nul := by
  intro fuel
  induction fuel with
  | zero =>
    intro a t c o L res oF hL h
    rw [fetchNextPageM] at h
    cases h
  | succ n ih =>
    intro a t c o L res oF hL h
    obtain ⟨fs, rfl⟩ := jsGet_ok_num hL
    rw [fetchNextPageM] at h
    rcases except_bind_ok.mp h with ⟨orc, horc, h1⟩
    match orc, h1 with
    | .undefined, h1 | .nul, h1 | .bool _, h1 | .num _, h1 | .str _, h1 | .obj _, h1 =>
      simp only [pure, Except.pure, Except.ok.injEq, Prod.mk.injEq] at h1
      obtain ⟨hres, hoF⟩ := h1
      subst hres
      exact ⟨by simp, rfl⟩
    | .arr cmds, h1 =>
      rcases except_bind_ok.mp h1 with ⟨app, happ, h2⟩
      rcases except_bind_ok.mp h2 with ⟨civ, hciv, h3⟩
      rcases except_bind_ok.mp h3 with ⟨cil, hcil, h4⟩
      rcases except_bind_ok.mp h4 with ⟨batch, hbatch, h5⟩
      rcases except_bind_ok.mp h5 with ⟨lim, hlim, h6⟩
      rw [hL] at hlim
      injection hlim with hlim
      subst hlim
      rcases except_bind_ok.mp h6 with ⟨o1, ho1, h7⟩
      rw [jsSet_obj] at ho1
      injection ho1 with ho1
      subst ho1
      rcases except_bind_ok.mp h7 with ⟨pg, hpg, h8⟩
      rcases except_bind_ok.mp h8 with ⟨o2, ho2, h9⟩
      rw [jsSet_obj] at ho2
      injection ho2 with ho2
      subst ho2
      rcases except_bind_ok.mp h9 with ⟨nt, hnt, h10⟩
      rcases except_bind_ok.mp h10 with ⟨lim2, hlim2, h11⟩
      rw [jsGet_obj, lookupField_setField_other _ _ _ _ (by decide),
        lookupField_setField_same] at hlim2
      injection hlim2 with hlim2
      subst hlim2
      rcases except_bind_ok.mp h11 with ⟨pg2, hpg2, h12⟩
      split at h12
      case isTrue hcond =>
        simp only [pure, Except.pure, Except.ok.injEq, Prod.mk.injEq] at h12
        obtain ⟨hres, hoF⟩ := h12
        subst hres
        constructor
        · simpa using limitFilter_length_le L _ 0
        · show (if _ ∧ _ then _ else JSVal.nul) = JSVal.nul
          rw [if_neg]
          intro hc
          exact Bool.false_ne_true hc.2
      case isFalse hcond =>
        rcases except_bind_ok.mp h12 with ⟨p, hp, h13⟩
        rcases p with ⟨next, oF2⟩
        simp only [pure, Except.pure, Except.ok.injEq, Prod.mk.injEq] at h13
        obtain ⟨hres, hoF⟩ := h13
        subst hres
        have hL2 : jsGet (JSVal.obj (setField (setField fs limitKey
            (.num ((toNumber (.num (.fin L))).sub
              (.fin (qOfNat (limitFilter (.num (.fin L))
                ((batch.1.map env.parseItemNext).filter truthy) 0).length)))))
            pagesKey (.num ((toNumber pg).sub (.fin 1))))) limitKey
            = .ok (.num (.fin (qSub L (qOfNat (limitFilter (.num (.fin L))
              ((batch.1.map env.parseItemNext).filter truthy) 0).length)))) := by
          rw [jsGet_obj, lookupField_setField_other _ _ _ _ (by decide),
            lookupField_setField_same]
          rfl
        obtain ⟨hlen, hcont⟩ := ih a nt c _ _ next oF2 hL2 hp
        refine ⟨?_, hcont⟩
        simp only [List.length_append]
        have h0 : (limitFilter (.num (.fin L))
            ((batch.1.map env.parseItemNext).filter truthy) 0).length ≤ ⌈L⌉₊ := by
          simpa using limitFilter_length_le L _ 0
        have h2 : ⌈qSub L (qOfNat (limitFilter (.num (.fin L))
            ((batch.1.map env.parseItemNext).filter truthy) 0).length)⌉₊
            = ⌈L - ((limitFilter (.num (.fin L))
              ((batch.1.map env.parseItemNext).filter truthy) 0).length : ℚ)⌉₊ := by
          rw [qSub_eq, qOfNat_eq]
        rw [h2] at hlen
        have h3 := ceil_sub_bound L _ h0
        omega

/-- C3: with the options record carrying a finite numeric item limit K, a
completed search returns at most K items in total — the index filter
truncates every page against the remaining budget, which starts at K and
shrinks by each page's kept count — and the result's continuation is null:
a continuation descriptor is only built when the remaining budget is the
Infinity value, which a finite budget never becomes. -/
theorem search_finite_limit (env : Env) (fuel : Nat) (json apiKey context opts : JSVal)
    (K : ℕ) (res : SearchResult) (optsF : JSVal)
    (hK : jsGet opts limitKey = .ok (.num (.fin (K : ℚ))))
    (h : fetchSearchResultsM env fuel json apiKey context opts = .ok (res, optsF)) :
    res.items.length ≤ K ∧ res.continuation = .nul := by
  obtain ⟨fs, rfl⟩ := jsGet_ok_num hK
  unfold fetchSearchResultsM at h
  rcases except_bind_ok.mp h with ⟨u, hu, h⟩
  rcases except_bind_ok.mp h with ⟨srch, hsrch, h⟩
  rcases except_bind_ok.mp h with ⟨est, hest, h⟩
  rcases except_bind_ok.mp h with ⟨refs, hrefs, h⟩
  rcases except_bind_ok.mp h with ⟨cts0, hcts0, h⟩
  rcases except_bind_ok.mp h with ⟨tcr, htcr, h⟩
  rcases except_bind_ok.mp h with ⟨pc, hpc, h⟩
  rcases except_bind_ok.mp h with ⟨batch, hbatch, h⟩
  rcases except_bind_ok.mp h with ⟨rawArr, hraw, h⟩
  rcases except_bind_ok.mp h with ⟨lim, hlim, h⟩
  rw [hK] at hlim
  injection hlim with hlim
  subst hlim
  rcases except_bind_ok.mp h with ⟨o1, ho1, h⟩
  rw [jsSet_obj] at ho1
  injection ho1 with ho1
  subst ho1
  rcases except_bind_ok.mp h with ⟨pg, hpg, h⟩
  rcases except_bind_ok.mp h with ⟨o2, ho2, h⟩
  rw [jsSet_obj] at ho2
  injection ho2 with ho2
  subst ho2
  rcases except_bind_ok.mp h with ⟨cat, hcat, h⟩
  rcases except_bind_ok.mp h with ⟨token, htoken, h⟩
  rcases except_bind_ok.mp h with ⟨lim2, hlim2, h⟩
  rw [jsGet_obj, lookupField_setField_other _ _ _ _ (by decide),
    lookupField_setField_same] at hlim2
  injection hlim2 with hlim2
  subst hlim2
  rcases except_bind_ok.mp h with ⟨pg2, hpg2, h⟩
  split at h
  case isTrue hcond =>
    simp only [pure, Except.pure, Except.ok.injEq, Prod.mk.injEq] at h
    obtain ⟨hres, hoF⟩ := h
    subst hres
    constructor
    · have := limitFilter_length_le ((K : ℚ)) ((rawArr.map env.parseItemFirst).filter truthy) 0
      rw [Nat.ceil_natCast] at this
      simpa using this
    · show (if _ ∧ _ then _ else JSVal.nul) = JSVal.nul
      rw [if_neg]
      intro hc
      exact Bool.false_ne_true hc.2
  case isFalse hcond =>
    rcases except_bind_ok.mp h with ⟨p, hp, h⟩
    rcases p with ⟨next, oF2⟩
    simp only [pure, Except.pure, Except.ok.injEq, Prod.mk.injEq] at h
    obtain ⟨hres, hoF⟩ := h
    subst hres
    have hL2 : jsGet (JSVal.obj (setField (setField fs limitKey
        (.num ((toNumber (.num (.fin (K : ℚ)))).sub
          (.fin (qOfNat (limitFilter (.num (.fin (K : ℚ)))
            ((rawArr.map env.parseItemFirst).filter truthy) 0).length)))))
        pagesKey (.num ((toNumber pg).sub (.fin 1))))) limitKey
        = .ok (.num (.fin (qSub (K : ℚ) (qOfNat (limitFilter (.num (.fin (K : ℚ)))
          ((rawArr.map env.parseItemFirst).filter truthy) 0).length)))) := by
      rw [jsGet_obj, lookupField_setField_other _ _ _ _ (by decide),
        lookupField_setField_same]
      rfl
    obtain ⟨hlen, hcont⟩ := fetchNextPage_finite_limit env fuel apiKey token context _ _ next oF2 hL2 hp
    refine ⟨?_, hcont⟩
    simp only [List.length_append]
    have h0 : (limitFilter (.num (.fin (K : ℚ)))
        ((rawArr.map env.parseItemFirst).filter truthy) 0).length ≤ ⌈(K : ℚ)⌉₊ := by
      simpa using limitFilter_length_le ((K : ℚ)) _ 0
    have h2 : ⌈qSub ((K : ℚ)) (qOfNat (limitFilter (.num (.fin (K : ℚ)))
        ((rawArr.map env.parseItemFirst).filter truthy) 0).length)⌉₊
        = ⌈(K : ℚ) - ((limitFilter (.num (.fin (K : ℚ)))
          ((rawArr.map env.parseItemFirst).filter truthy) 0).length : ℚ)⌉₊ := by
      rw [qSub_eq, qOfNat_eq]
    rw [h2] at hlen
    have h3 := ceil_sub_bound ((K : ℚ)) _ h0
    rw [Nat.ceil_natCast] at h3 h0
    omega

/-- The outcome of a concrete one-page search with limit 3. -/
def searchRes0 : SearchResult × JSVal :=
  (fetchSearchResultsM env0 2 json0 .undefined .undefined opts0).toOption.getD
    ⟨⟨.undefined, .undefined, .nan, [], [], [], .undefined⟩, .undefined⟩

/-- C3 witness: the bound and the null continuation on a concrete search
with limit 3 over the fixture document. -/
theorem search_finite_limit_witness :
    searchRes0.1.items.length ≤ 3 ∧ searchRes0.1.continuation = .nul :=
  search_finite_limit env0 2 json0 .undefined .undefined opts0 3 searchRes0.1 searchRes0.2
    (by rfl) (by rfl)

/-! ## C9: page order of the flattened result -/

/-- The page-indexed view of `fetchNextPage`: the same control flow and
state threading, but the kept items of each fetched page are returned as a
separate list entry, the current page's list consed ahead of whatever the
recursive call produced (the `unshift` of the source), instead of being
flattened. -/
def fetchNextPagesM (env : Env) : Nat → JSVal → JSVal → JSVal → JSVal →
    Except EngineErr (List (List JSVal) × JSVal × JSVal)
  | 0, _, _, _, _ => .error .outOfFuel
  | n + 1, apiKey, token, context, options => do
    let response := env.fetch n
    let orc ← jsGet response orcKey
    match orc with
    | .arr cmds => do
      let cmd0 := cmds.headD .undefined
      let app ← jsGet cmd0 appendActionKey
      let ci ← jsGet app continuationItemsKey
      let cil ← jsIterate ci
      let batch ← parsePage2WrapperM cil
      let lim ← jsGet options limitKey
      let parsed := limitFilter lim ((batch.1.map env.parseItemNext).filter truthy) 0
      let options1 ← jsSet options limitKey (.num ((toNumber lim).sub (.fin (qOfNat parsed.length))))
      let pg ← jsGet options1 pagesKey
      let options2 ← jsSet options1 pagesKey (.num ((toNumber pg).sub (.fin 1)))
      let nextToken ← tokenOf batch.2
      let lim2 ← jsGet options2 limitKey
      let pg2 ← jsGet options2 pagesKey
      if ¬ truthy nextToken ∨ jsLtNum lim2 1 ∨ jsLtNum pg2 1 then
        let contV := if truthy nextToken ∧ isInfV lim2 then
            JSVal.arr [apiKey, nextToken, context, options2]
          else JSVal.nul
        return ([parsed], contV, options2)
      else do
        let (ps, cont, optsF) ← fetchNextPagesM env n apiKey nextToken context options2
        return (parsed :: ps, cont, optsF)
    | _ => return ([], .nul, options)

/-- `fetchNextPage` equals the page-indexed view with the per-page lists
concatenated in order. -/
theorem pages_spec (env : Env) : ∀ (fuel : Nat) (a t c o : JSVal),
    fetchNextPageM env fuel a t c o
      = Except.map (fun x => ({ items := x.1.join, continuation := x.2.1 }, x.2.2))
          (fetchNextPagesM env fuel a t c o) := by
  intro fuel
  induction fuel with
  | zero => intro a t c o; rfl
  | succ n ih =>
    intro a t c o
    rw [fetchNextPageM, fetchNextPagesM]
    rcases hg : jsGet (env.fetch n) orcKey with e | orc
    · rfl
    cases orc with
    | arr cmds =>
      simp only [ok_bind]
      rcases h1 : jsGet (cmds.headD .undefined) appendActionKey with e | app
      · rfl
      simp only [ok_bind]
      rcases h2 : jsGet app continuationItemsKey with e | ci
      · rfl
      simp only [ok_bind]
      rcases h3 : jsIterate ci with e | cil
      · rfl
      simp only [ok_bind]
      rcases h4 : parsePage2WrapperM cil with e | batch
      · rfl
      simp only [ok_bind]
      rcases h5 : jsGet o limitKey with e | lim
      · rfl
      simp only [ok_bind]
      rcases h6 : jsSet o limitKey (.num ((toNumber lim).sub (.fin (qOfNat (limitFilter lim
          ((batch.1.map env.parseItemNext).filter truthy) 0).length)))) with e | o1
      · rfl
      simp only [ok_bind]
      rcases h7 : jsGet o1 pagesKey with e | pg
      · rfl
      simp only [ok_bind]
      rcases h8 : jsSet o1 pagesKey (.num ((toNumber pg).sub (.fin 1))) with e | o2
      · rfl
      simp only [ok_bind]
      rcases h9 : tokenOf batch.2 with e | nt
      · rfl
      simp only [ok_bind]
      rcases h10 : jsGet o2 limitKey with e | lim2
      · rfl
      simp only [ok_bind]
      rcases h11 : jsGet o2 pagesKey with e | pg2
      · rfl
      simp only [ok_bind]
      split
      case isTrue hc =>
        simp [Except.map, pure, Except.pure]
      case isFalse hc =>
        rw [ih]
        rcases hr : fetchNextPagesM env n a nt c o2 with e | x
        · rfl
        rcases x with ⟨ps, cont, oF⟩
        simp [Except.map, ok_bind, pure, Except.pure]
    | undefined => rfl
    | nul => rfl
    | bool b => rfl
    | num m => rfl
    | str s => rfl
    | obj fs => rfl

/-- The page-indexed view of the whole search: the first page's kept
items, then the entries of `fetchNextPagesM`. -/
def searchPagesM (env : Env) (fuel : Nat) (json apiKey context opts : JSVal) :
    Except EngineErr (List (List JSVal) × JSVal) := do
  alertsCheckM env.toStr json
  let _srch ← jsGet opts searchKey
  let _est ← jsGet json estResultsKey
  let _refs ← jsGet json refinementsKey
  let cts0 ← jsGet json contentsKey
  let tcr ← jsGet cts0 twoColKey
  let pc ← jsGet tcr primaryContentsKey
  let batch ← parseWrapperM pc
  let rawArr ← asArray batch.rawItems
  let lim ← jsGet opts limitKey
  let items := limitFilter lim ((rawArr.map env.parseItemFirst).filter truthy) 0
  let opts1 ← jsSet opts limitKey (.num ((toNumber lim).sub (.fin (qOfNat items.length))))
  let pg ← jsGet opts1 pagesKey
  let opts2 ← jsSet opts1 pagesKey (.num ((toNumber pg).sub (.fin 1)))
  let _cat ← parseFiltersM env.toStr env.urlRes json
  let token ← tokenOf batch.continuation
  let lim2 ← jsGet opts2 limitKey
  let pg2 ← jsGet opts2 pagesKey
  if ¬ truthy token ∨ jsLtNum lim2 1 ∨ jsLtNum pg2 1 then
    return ([items], opts2)
  else do
    let (ps, _cont, optsF) ← fetchNextPagesM env fuel apiKey token context opts2
    return (items :: ps, optsF)

/-- C9: the items of a completed multi-page search appear in retrieval
order head-to-tail — the result's flat item list is exactly the
concatenation of the per-page kept lists in page order, each recursion
level placing its own page's items ahead of whatever its recursive
continuation call produced. -/
theorem search_page_order (env : Env) (fuel : Nat) (json apiKey context opts : JSVal)
    (res : SearchResult) (optsF : JSVal)
    (h : fetchSearchResultsM env fuel json apiKey context opts = .ok (res, optsF)) :
    ∃ ps : List (List JSVal),
      searchPagesM env fuel json apiKey context opts = .ok (ps, optsF)
      ∧ res.items = ps.join := by
  unfold fetchSearchResultsM at h
  rcases except_bind_ok.mp h with ⟨u, hu, h⟩
  rcases except_bind_ok.mp h with ⟨srch, hsrch, h⟩
  rcases except_bind_ok.mp h with ⟨est, hest, h⟩
  rcases except_bind_ok.mp h with ⟨refs, hrefs, h⟩
  rcases except_bind_ok.mp h with ⟨cts0, hcts0, h⟩
  rcases except_bind_ok.mp h with ⟨tcr, htcr, h⟩
  rcases except_bind_ok.mp h with ⟨pc, hpc, h⟩
  rcases except_bind_ok.mp h with ⟨batch, hbatch, h⟩
  rcases except_bind_ok.mp h with ⟨rawArr, hraw, h⟩
  rcases except_bind_ok.mp h with ⟨lim, hlim, h⟩
  rcases except_bind_ok.mp h with ⟨o1, ho1, h⟩
  rcases except_bind_ok.mp h with ⟨pg, hpg, h⟩
  rcases except_bind_ok.mp h with ⟨o2, ho2, h⟩
  rcases except_bind_ok.mp h with ⟨cat, hcat, h⟩
  rcases except_bind_ok.mp h with ⟨token, htoken, h⟩
  rcases except_bind_ok.mp h with ⟨lim2, hlim2, h⟩
  rcases except_bind_ok.mp h with ⟨pg2, hpg2, h⟩
  unfold searchPagesM
  simp only [hu, hsrch, hest, hrefs, hcts0, htcr, hpc, hbatch, hraw, hlim, ho1, hpg, ho2,
    hcat, htoken, hlim2, hpg2, ok_bind]
  split at h
  case isTrue hcond =>
    rw [if_pos hcond]
    simp only [pure, Except.pure, Except.ok.injEq, Prod.mk.injEq] at h
    obtain ⟨hres, hoF⟩ := h
    subst hoF
    refine ⟨[limitFilter lim ((rawArr.map env.parseItemFirst).filter truthy) 0], rfl, ?_⟩
    rw [← hres]
    simp
  case isFalse hcond =>
    rw [if_neg hcond]
    rcases except_bind_ok.mp h with ⟨p, hp, h⟩
    rcases p with ⟨next, oF2⟩
    simp only [pure, Except.pure, Except.ok.injEq, Prod.mk.injEq] at h
    obtain ⟨hres, hoF⟩ := h
    subst hoF
    have hps := pages_spec env fuel apiKey token context o2
    rw [hp] at hps
    rcases hg : fetchNextPagesM env fuel apiKey token context o2 with e | x
    · rw [hg] at hps; cases hps
    rcases x with ⟨ps, cont, oF3⟩
    rw [hg] at hps
    simp only [Except.map, Except.ok.injEq, Prod.mk.injEq] at hps
    obtain ⟨hnext, hoF3⟩ := hps
    refine ⟨limitFilter lim ((rawArr.map env.parseItemFirst).filter truthy) 0 :: ps, ?_, ?_⟩
    · rw [ok_bind, ← hoF3]
      rfl
    · rw [← hres, hnext]
      simp

def aStr : String := "A"
def bStr : String := "B"

/-- A continuation marker carrying a token. -/
def contMarker : JSVal := .obj [(continuationItemKey, .obj [(contEndpointKey,
  .obj [(contCommandKey, .obj [(tokenKey, .str tokStr)])])])]

/-- A sectioned first-page container with one kept item and a
continuation marker. -/
def pcC9 : JSVal := .obj [
  (sectionListKey, .obj [
    (contentsKey, .arr [.obj [(itemSectionKey, .obj [(contentsKey, .arr [.str aStr])])],
      contMarker]),
    (subMenuKey, .obj [(searchSubMenuKey, .obj [])])])]

/-- A decoded first-page document around `pcC9`. -/
def jsonC9 : JSVal := .obj [
  (contentsKey, .obj [(twoColKey, .obj [(primaryContentsKey, pcC9)])]),
  (headerKey, .obj [(searchHeaderKey, .obj [(searchFilterButtonKey, .obj [(buttonRendererKey,
    .obj [(commandKey, .obj [(openPopupKey, .obj [(popupKey,
    .obj [(dialogKey, .obj [])])])])])])])])]

/-- A second-page response with one kept item and no further marker. -/
def page2resp : JSVal := .obj [(orcKey, .arr [.obj [(appendActionKey,
  .obj [(continuationItemsKey, .arr [.obj [(itemSectionKey,
    .obj [(contentsKey, .arr [.str bStr])])]])])]])]

/-- An oracle answering every continuation fetch with `page2resp`. -/
def envC9 : Env where
  fetch := fun _ => page2resp
  parseItemFirst := id
  parseItemNext := id
  toStr := fun _ => emptyStr
  urlRes := fun _ => emptyStr

/-- Options with an unbounded item budget and a two-page budget. -/
def optsC9 : JSVal := .obj [(limitKey, .num .inf), (pagesKey, .num (.fin 2))]

/-- The outcome of the concrete two-page search. -/
def searchC9res : SearchResult × JSVal :=
  (fetchSearchResultsM envC9 2 jsonC9 .undefined .undefined optsC9).toOption.getD
    ⟨⟨.undefined, .undefined, .nan, [], [], [], .undefined⟩, .undefined⟩

/-- C9 witness: on a concrete two-page search the flat result decomposes
into the two per-page lists in retrieval order. -/
theorem search_page_order_witness :
    ∃ ps : List (List JSVal),
      searchPagesM envC9 2 jsonC9 .undefined .undefined optsC9 = .ok (ps, searchC9res.2)
      ∧ searchC9res.1.items = ps.join :=
  search_page_order envC9 2 jsonC9 .undefined .undefined optsC9 searchC9res.1 searchC9res.2 (by rfl)

end Ytsr
